import Mathlib

/-!
Verification of the bouncing-particle simulator.

The source program moves point particles inside a 20 x 100 rectangular arena.
Its core is `get_new_position`, a recursive resolver that advances one particle
by one tick, reflecting its direction off the arena walls, together with a
segment-segment intersection routine `Line.intersect` and the grid mapping
`point_to_board_coord` used by the renderer.

The embedding below translates the source's `f32` arithmetic into exact real
arithmetic (`Real.cos`/`Real.sin` for the trigonometry).  The recursion of
`get_new_position` is made structural by an explicit fuel parameter; running
out of fuel yields `none`, and a separate development proves that a fuel of
`potential p v + 1` always suffices, so the fuel-free behaviour of the source
is recovered.
-/

namespace Bouncy

noncomputable section

open Real

/-- `type Point = (f32, f32)` of the source, with `f32` idealized as `ℝ`. -/
abbrev Point : Type := ℝ × ℝ

/-- `struct Line(Point, Point)` of the source. -/
structure Line where
  a : Point
  b : Point

/-- `Line::intersect` of the source: parametric segment-segment intersection.
Returns `none` for a zero denominator (parallel lines) or parameters outside
`[0, 1]`, and otherwise the point on `self`'s parametrization. -/
def Line.intersect (self other : Line) : Option Point :=
  let x1 := self.a.1; let y1 := self.a.2
  let x2 := self.b.1; let y2 := self.b.2
  let x3 := other.a.1; let y3 := other.a.2
  let x4 := other.b.1; let y4 := other.b.2
  let denominator := (x1 - x2) * (y3 - y4) - (y1 - y2) * (x3 - x4)
  if denominator = 0 then none
  else
    let t := ((x1 - x3) * (y3 - y4) - (y1 - y3) * (x3 - x4)) / denominator
    let u := -((x1 - x2) * (y1 - y3) - (y1 - y2) * (x1 - x3)) / denominator
    if 0 ≤ t ∧ t ≤ 1 ∧ 0 ≤ u ∧ u ≤ 1 then
      some (x1 + t * (x2 - x1), y1 + t * (y2 - y1))
    else none

/-- `struct Velocity { direction: f32, distance: f32 }` of the source. -/
structure Velocity where
  direction : ℝ
  distance : ℝ

/-- `const PLAY_AREA_SIZE: Size = (20, 100)` of the source. -/
def PLAY_AREA_SIZE : ℕ × ℕ := (20, 100)

/-- `const BOARD_RESOLUTION: Size = (20, 100)` of the source. -/
def BOARD_RESOLUTION : ℕ × ℕ := (20, 100)

/-- `RIGHT_WALL` of the source. -/
def RIGHT_WALL : Line :=
  ⟨((PLAY_AREA_SIZE.1 : ℝ), 0), ((PLAY_AREA_SIZE.1 : ℝ), (PLAY_AREA_SIZE.2 : ℝ))⟩

/-- `LEFT_WALL` of the source. -/
def LEFT_WALL : Line := ⟨(0, 0), (0, (PLAY_AREA_SIZE.2 : ℝ))⟩

/-- `TOP_WALL` of the source. -/
def TOP_WALL : Line := ⟨(0, 0), ((PLAY_AREA_SIZE.1 : ℝ), 0)⟩

/-- `BOTTOM_WALL` of the source. -/
def BOTTOM_WALL : Line :=
  ⟨(0, (PLAY_AREA_SIZE.2 : ℝ)), ((PLAY_AREA_SIZE.1 : ℝ), (PLAY_AREA_SIZE.2 : ℝ))⟩

/-- `fn calc_distance` of the source: Euclidean distance. -/
def calc_distance (p1 p2 : Point) : ℝ :=
  Real.sqrt ((p2.1 - p1.1) ^ 2 + (p2.2 - p1.2) ^ 2)

/-- The naive straight-line endpoint `(point_0, point_1)` computed at the top
of `get_new_position`. -/
def candidate (position : Point) (velocity : Velocity) : Point :=
  (position.1 + velocity.distance * Real.cos velocity.direction,
   position.2 + velocity.distance * Real.sin velocity.direction)

/-- The `x_contact` wall selection of `get_new_position`. -/
def x_contact (position : Point) (velocity : Velocity) : Option Line :=
  if (candidate position velocity).1 < 0 then some LEFT_WALL
  else if (PLAY_AREA_SIZE.1 : ℝ) ≤ (candidate position velocity).1 then some RIGHT_WALL
  else none

/-- The `y_contact` wall selection of `get_new_position`. -/
def y_contact (position : Point) (velocity : Velocity) : Option Line :=
  if (candidate position velocity).2 < 0 then some TOP_WALL
  else if (PLAY_AREA_SIZE.2 : ℝ) ≤ (candidate position velocity).2 then some BOTTOM_WALL
  else none

/-- The `traveled_line` segment of `get_new_position`. -/
def traveled (position : Point) (velocity : Velocity) : Line :=
  ⟨position, candidate position velocity⟩

/-- The x-wall entry (if any) pushed into the `intersections` vector. -/
def ix (position : Point) (velocity : Velocity) : Option Point :=
  (x_contact position velocity).bind fun w => (traveled position velocity).intersect w

/-- The y-wall entry (if any) pushed into the `intersections` vector. -/
def iy (position : Point) (velocity : Velocity) : Option Point :=
  (y_contact position velocity).bind fun w => (traveled position velocity).intersect w

/-- The sort key `(distance * 10_000.0) as u32` used by `min_by_key`:
an `f32`-to-`u32` cast truncates toward zero and saturates at the ends. -/
def sortKey (d : ℝ) : ℕ := min (⌊d * 10000⌋).toNat (2 ^ 32 - 1)

/-- The `min_by_key` selection over the `intersections` vector, which holds
the x-wall entry (flag `true`) before the y-wall entry (flag `false`).
Rust's `min_by_key` returns the first of equally minimal elements, so the
y-wall entry wins only when its key is strictly smaller. -/
def selectBounce (position : Point) (velocity : Velocity) : Option (Point × Bool) :=
  match ix position velocity, iy position velocity with
  | none, none => none
  | some a, none => some (a, true)
  | none, some b => some (b, false)
  | some a, some b =>
      if sortKey (calc_distance position b) < sortKey (calc_distance position a) then
        some (b, false)
      else some (a, true)

/-- The reflected direction `multiplier * PI - velocity.direction` of the
source, where `multiplier` is `1.0` for an x-wall hit and `2.0` otherwise. -/
def reflect_direction (x_intersect : Bool) (direction : ℝ) : ℝ :=
  (if x_intersect then (1 : ℝ) else 2) * Real.pi - direction

/-- `fn get_new_position` of the source, with an explicit fuel bounding the
recursion depth; `none` means the fuel ran out. -/
def get_new_position : ℕ → Point → Velocity → Option (Point × Velocity)
  | 0, _, _ => none
  | fuel + 1, position, velocity =>
    match selectBounce position velocity with
    | none => some (candidate position velocity, velocity)
    | some (intersect_point, x_intersect) =>
      match get_new_position fuel intersect_point
          { direction := reflect_direction x_intersect velocity.direction,
            distance := velocity.distance - calc_distance position intersect_point } with
      | none => none
      | some (new_point, v2) =>
          some (new_point, { direction := v2.direction, distance := velocity.distance })

/-- The `f32`-to-`usize` cast used by `point_to_board_coord`: truncation
toward zero, saturating at `0` for negative inputs. -/
def as_usize (x : ℝ) : ℕ := (⌊x⌋).toNat

/-- `fn point_to_board_coord` of the source. -/
def point_to_board_coord (point : Point) (resolution play_area : ℕ × ℕ) : ℕ × ℕ :=
  (as_usize (point.1 / (play_area.1 : ℝ) * (resolution.1 : ℝ)),
   as_usize (point.2 / (play_area.2 : ℝ) * (resolution.2 : ℝ)))

/-- The closed arena rectangle `[0, 20] × [0, 100]`. -/
def inArena (p : Point) : Prop := 0 ≤ p.1 ∧ p.1 ≤ 20 ∧ 0 ≤ p.2 ∧ p.2 ≤ 100

/-- Horizontal part of the termination potential: an upper accounting of the
number of x-wall bounces the remaining travel can still produce. -/
def phiX (p : Point) (v : Velocity) : ℤ :=
  ⌊(v.distance * |Real.cos v.direction| +
      (if 0 < Real.cos v.direction then p.1 else 20 - p.1)) / 20⌋

/-- Vertical part of the termination potential. -/
def phiY (p : Point) (v : Velocity) : ℤ :=
  ⌊(v.distance * |Real.sin v.direction| +
      (if 0 < Real.sin v.direction then p.2 else 100 - p.2)) / 100⌋

/-- Termination potential: strictly decreases at every wall bounce. -/
def potential (p : Point) (v : Velocity) : ℕ := (phiX p v).toNat + (phiY p v).toNat

end

/-! ### Basic rewriting lemmas -/

@[simp] lemma play_area_fst : ((PLAY_AREA_SIZE.1 : ℕ) : ℝ) = 20 := by
  norm_num [PLAY_AREA_SIZE]

@[simp] lemma play_area_snd : ((PLAY_AREA_SIZE.2 : ℕ) : ℝ) = 100 := by
  norm_num [PLAY_AREA_SIZE]

lemma left_wall_eq : LEFT_WALL = ⟨(0, 0), (0, 100)⟩ := by
  simp [LEFT_WALL]

lemma right_wall_eq : RIGHT_WALL = ⟨(20, 0), (20, 100)⟩ := by
  simp [RIGHT_WALL]

lemma top_wall_eq : TOP_WALL = ⟨(0, 0), (20, 0)⟩ := by
  simp [TOP_WALL]

lemma bottom_wall_eq : BOTTOM_WALL = ⟨(0, 100), (20, 100)⟩ := by
  simp [BOTTOM_WALL]

/-! ### Characterization of `Line.intersect` -/

/-- Forward direction: if the two parametrizations meet at parameters
`t, u ∈ [0, 1]` and the denominator is nonzero, `intersect` returns the
meeting point (computed from `self`'s parametrization). -/
lemma intersect_some_intro (self other : Line) (t u : ℝ)
    (hden : ¬((self.a.1 - self.b.1) * (other.a.2 - other.b.2) -
        (self.a.2 - self.b.2) * (other.a.1 - other.b.1) = 0))
    (ht0 : 0 ≤ t) (ht1 : t ≤ 1) (hu0 : 0 ≤ u) (hu1 : u ≤ 1)
    (hx : self.a.1 + t * (self.b.1 - self.a.1) = other.a.1 + u * (other.b.1 - other.a.1))
    (hy : self.a.2 + t * (self.b.2 - self.a.2) = other.a.2 + u * (other.b.2 - other.a.2)) :
    self.intersect other =
      some (self.a.1 + t * (self.b.1 - self.a.1), self.a.2 + t * (self.b.2 - self.a.2)) := by
  simp only [Line.intersect]
  set x1 := self.a.1 with hx1
  set y1 := self.a.2 with hy1
  set x2 := self.b.1 with hx2
  set y2 := self.b.2 with hy2
  set x3 := other.a.1 with hx3
  set y3 := other.a.2 with hy3
  set x4 := other.b.1 with hx4
  set y4 := other.b.2 with hy4
  have h1 : t * ((x1 - x2) * (y3 - y4) - (y1 - y2) * (x3 - x4)) =
      (x1 - x3) * (y3 - y4) - (y1 - y3) * (x3 - x4) := by
    linear_combination (x3 - x4) * hy - (y3 - y4) * hx
  have h2 : u * ((x1 - x2) * (y3 - y4) - (y1 - y2) * (x3 - x4)) =
      -((x1 - x2) * (y1 - y3) - (y1 - y2) * (x1 - x3)) := by
    linear_combination (x1 - x2) * hy - (y1 - y2) * hx
  have ht' : t = ((x1 - x3) * (y3 - y4) - (y1 - y3) * (x3 - x4)) /
      ((x1 - x2) * (y3 - y4) - (y1 - y2) * (x3 - x4)) := by
    rw [eq_div_iff hden]; exact h1
  have hu' : u = -((x1 - x2) * (y1 - y3) - (y1 - y2) * (x1 - x3)) /
      ((x1 - x2) * (y3 - y4) - (y1 - y2) * (x3 - x4)) := by
    rw [eq_div_iff hden]; exact h2
  rw [if_neg hden, ← ht', ← hu', if_pos ⟨ht0, ht1, hu0, hu1⟩]

/-- Inversion: a point returned by `intersect` lies on both segments, each at
a parameter in `[0, 1]`. -/
lemma intersect_some_spec {self other : Line} {A : Point}
    (h : self.intersect other = some A) :
    ¬((self.a.1 - self.b.1) * (other.a.2 - other.b.2) -
        (self.a.2 - self.b.2) * (other.a.1 - other.b.1) = 0) ∧
    ∃ t u : ℝ, 0 ≤ t ∧ t ≤ 1 ∧ 0 ≤ u ∧ u ≤ 1 ∧
      A.1 = self.a.1 + t * (self.b.1 - self.a.1) ∧
      A.2 = self.a.2 + t * (self.b.2 - self.a.2) ∧
      A.1 = other.a.1 + u * (other.b.1 - other.a.1) ∧
      A.2 = other.a.2 + u * (other.b.2 - other.a.2) := by
  simp only [Line.intersect] at h
  set x1 := self.a.1 with hx1
  set y1 := self.a.2 with hy1
  set x2 := self.b.1 with hx2
  set y2 := self.b.2 with hy2
  set x3 := other.a.1 with hx3
  set y3 := other.a.2 with hy3
  set x4 := other.b.1 with hx4
  set y4 := other.b.2 with hy4
  split_ifs at h with h1 h2
  rw [Option.some_inj] at h
  subst h
  obtain ⟨ht0, ht1, hu0, hu1⟩ := h2
  have htd := div_mul_cancel₀
    ((x1 - x3) * (y3 - y4) - (y1 - y3) * (x3 - x4))
    (b := (x1 - x2) * (y3 - y4) - (y1 - y2) * (x3 - x4)) h1
  have hud := div_mul_cancel₀
    (-((x1 - x2) * (y1 - y3) - (y1 - y2) * (x1 - x3)))
    (b := (x1 - x2) * (y3 - y4) - (y1 - y2) * (x3 - x4)) h1
  refine ⟨h1, _, _, ht0, ht1, hu0, hu1, rfl, rfl, ?_, ?_⟩
  · apply mul_right_cancel₀ h1
    linear_combination (x2 - x1) * htd - (x4 - x3) * hud
  · apply mul_right_cancel₀ h1
    linear_combination (y2 - y1) * htd - (y4 - y3) * hud

/-- A degenerate `self` segment (both endpoints equal) never intersects:
the denominator is zero. -/
lemma intersect_none_of_deg {self other : Line}
    (h1 : self.a.1 = self.b.1) (h2 : self.a.2 = self.b.2) :
    self.intersect other = none := by
  simp only [Line.intersect]
  rw [if_pos (by rw [h1, h2]; ring)]

/-- Forward lemma for a vertical wall `x = wx` spanning `y ∈ [0, 100]`. -/
lemma intersect_vwall_some {p c : Point} {wx t : ℝ} (hne : p.1 - c.1 ≠ 0)
    (ht : t * (p.1 - c.1) = p.1 - wx) (ht0 : 0 ≤ t) (ht1 : t ≤ 1)
    (hy0 : 0 ≤ p.2 + t * (c.2 - p.2)) (hy1 : p.2 + t * (c.2 - p.2) ≤ 100) :
    Line.intersect ⟨p, c⟩ ⟨(wx, 0), (wx, 100)⟩ =
      some (p.1 + t * (c.1 - p.1), p.2 + t * (c.2 - p.2)) := by
  have h100 : (0:ℝ) < 100 := by norm_num
  apply intersect_some_intro ⟨p, c⟩ ⟨(wx, 0), (wx, 100)⟩ t ((p.2 + t * (c.2 - p.2)) / 100)
  · show ¬((p.1 - c.1) * ((0:ℝ) - 100) - (p.2 - c.2) * (wx - wx) = 0)
    intro hq
    exact hne (by linear_combination (-1/100 : ℝ) * hq)
  · exact ht0
  · exact ht1
  · exact div_nonneg hy0 (by norm_num)
  · rw [div_le_one h100]; exact hy1
  · show p.1 + t * (c.1 - p.1) = wx + (p.2 + t * (c.2 - p.2)) / 100 * (wx - wx)
    linear_combination -ht
  · show p.2 + t * (c.2 - p.2) = 0 + (p.2 + t * (c.2 - p.2)) / 100 * (100 - 0)
    field_simp

/-- Forward lemma for a horizontal wall `y = wy` spanning `x ∈ [0, 20]`. -/
lemma intersect_hwall_some {p c : Point} {wy t : ℝ} (hne : p.2 - c.2 ≠ 0)
    (ht : t * (p.2 - c.2) = p.2 - wy) (ht0 : 0 ≤ t) (ht1 : t ≤ 1)
    (hx0 : 0 ≤ p.1 + t * (c.1 - p.1)) (hx1 : p.1 + t * (c.1 - p.1) ≤ 20) :
    Line.intersect ⟨p, c⟩ ⟨(0, wy), (20, wy)⟩ =
      some (p.1 + t * (c.1 - p.1), p.2 + t * (c.2 - p.2)) := by
  have h20 : (0:ℝ) < 20 := by norm_num
  apply intersect_some_intro ⟨p, c⟩ ⟨(0, wy), (20, wy)⟩ t ((p.1 + t * (c.1 - p.1)) / 20)
  · show ¬((p.1 - c.1) * (wy - wy) - (p.2 - c.2) * ((0:ℝ) - 20) = 0)
    intro hq
    exact hne (by linear_combination (1/20 : ℝ) * hq)
  · exact ht0
  · exact ht1
  · exact div_nonneg hx0 (by norm_num)
  · rw [div_le_one h20]; exact hx1
  · show p.1 + t * (c.1 - p.1) = 0 + (p.1 + t * (c.1 - p.1)) / 20 * (20 - 0)
    field_simp
  · show p.2 + t * (c.2 - p.2) = wy + (p.1 + t * (c.1 - p.1)) / 20 * (wy - wy)
    linear_combination -ht

/-- Inversion lemma for a vertical wall `x = wx` spanning `y ∈ [0, 100]`. -/
lemma vwall_inv {p c : Point} {wx : ℝ} {A : Point}
    (h : Line.intersect ⟨p, c⟩ ⟨(wx, 0), (wx, 100)⟩ = some A) :
    p.1 ≠ c.1 ∧ ∃ t : ℝ, 0 ≤ t ∧ t ≤ 1 ∧
      A.1 = p.1 + t * (c.1 - p.1) ∧ A.2 = p.2 + t * (c.2 - p.2) ∧
      A.1 = wx ∧ 0 ≤ A.2 ∧ A.2 ≤ 100 := by
  obtain ⟨hden, t, u, ht0, ht1, hu0, hu1, e1, e2, e3, e4⟩ := intersect_some_spec h
  have hne : p.1 ≠ c.1 := by
    intro hq
    exact hden (by linear_combination ((0:ℝ) - 100) * hq)
  have h2 : A.2 = 100 * u := by linear_combination e4
  refine ⟨hne, t, ht0, ht1, e1, e2, by linear_combination e3, ?_, ?_⟩
  · have := mul_nonneg (by norm_num : (0:ℝ) ≤ 100) hu0
    linarith
  · have := mul_le_mul_of_nonneg_left hu1 (by norm_num : (0:ℝ) ≤ 100)
    linarith

/-- Inversion lemma for a horizontal wall `y = wy` spanning `x ∈ [0, 20]`. -/
lemma hwall_inv {p c : Point} {wy : ℝ} {A : Point}
    (h : Line.intersect ⟨p, c⟩ ⟨(0, wy), (20, wy)⟩ = some A) :
    p.2 ≠ c.2 ∧ ∃ t : ℝ, 0 ≤ t ∧ t ≤ 1 ∧
      A.1 = p.1 + t * (c.1 - p.1) ∧ A.2 = p.2 + t * (c.2 - p.2) ∧
      A.2 = wy ∧ 0 ≤ A.1 ∧ A.1 ≤ 20 := by
  obtain ⟨hden, t, u, ht0, ht1, hu0, hu1, e1, e2, e3, e4⟩ := intersect_some_spec h
  have hne : p.2 ≠ c.2 := by
    intro hq
    exact hden (by linear_combination (20:ℝ) * hq)
  have h2 : A.1 = 20 * u := by linear_combination e3
  refine ⟨hne, t, ht0, ht1, e1, e2, by linear_combination e4, ?_, ?_⟩
  · have := mul_nonneg (by norm_num : (0:ℝ) ≤ 20) hu0
    linarith
  · have := mul_le_mul_of_nonneg_left hu1 (by norm_num : (0:ℝ) ≤ 20)
    linarith

/-! ### Contact and selection lemmas -/

lemma traveled_eq (p : Point) (v : Velocity) : traveled p v = ⟨p, candidate p v⟩ := rfl

lemma ix_eq_of_lt {p : Point} {v : Velocity} (h : (candidate p v).1 < 0) :
    ix p v = (traveled p v).intersect LEFT_WALL := by
  rw [ix, x_contact, if_pos h]; rfl

lemma ix_eq_of_ge {p : Point} {v : Velocity} (h1 : ¬(candidate p v).1 < 0)
    (h2 : ((PLAY_AREA_SIZE.1 : ℕ) : ℝ) ≤ (candidate p v).1) :
    ix p v = (traveled p v).intersect RIGHT_WALL := by
  rw [ix, x_contact, if_neg h1, if_pos h2]; rfl

lemma ix_eq_none {p : Point} {v : Velocity} (h1 : ¬(candidate p v).1 < 0)
    (h2 : ¬((PLAY_AREA_SIZE.1 : ℕ) : ℝ) ≤ (candidate p v).1) :
    ix p v = none := by
  rw [ix, x_contact, if_neg h1, if_neg h2]; rfl

lemma iy_eq_of_lt {p : Point} {v : Velocity} (h : (candidate p v).2 < 0) :
    iy p v = (traveled p v).intersect TOP_WALL := by
  rw [iy, y_contact, if_pos h]; rfl

lemma iy_eq_of_ge {p : Point} {v : Velocity} (h1 : ¬(candidate p v).2 < 0)
    (h2 : ((PLAY_AREA_SIZE.2 : ℕ) : ℝ) ≤ (candidate p v).2) :
    iy p v = (traveled p v).intersect BOTTOM_WALL := by
  rw [iy, y_contact, if_neg h1, if_pos h2]; rfl

lemma iy_eq_none {p : Point} {v : Velocity} (h1 : ¬(candidate p v).2 < 0)
    (h2 : ¬((PLAY_AREA_SIZE.2 : ℕ) : ℝ) ≤ (candidate p v).2) :
    iy p v = none := by
  rw [iy, y_contact, if_neg h1, if_neg h2]; rfl

lemma selectBounce_eq_none_iff {p : Point} {v : Velocity} :
    selectBounce p v = none ↔ ix p v = none ∧ iy p v = none := by
  rcases hx : ix p v with _ | a <;> rcases hy : iy p v with _ | b <;>
    simp only [selectBounce, hx, hy] <;> simp <;> split_ifs <;> simp

lemma selectBounce_true_ix {p : Point} {v : Velocity} {A : Point}
    (h : selectBounce p v = some (A, true)) : ix p v = some A := by
  rcases hx : ix p v with _ | a <;> rcases hy : iy p v with _ | b <;>
      simp only [selectBounce, hx, hy] at h
  · simp at h
  · simp at h
  · simp only [Option.some.injEq, Prod.mk.injEq] at h
    rw [h.1]
  · split_ifs at h
    · simp at h
    · simp only [Option.some.injEq, Prod.mk.injEq] at h
      rw [h.1]

lemma selectBounce_false_iy {p : Point} {v : Velocity} {A : Point}
    (h : selectBounce p v = some (A, false)) : iy p v = some A := by
  rcases hx : ix p v with _ | a <;> rcases hy : iy p v with _ | b <;>
      simp only [selectBounce, hx, hy] at h
  · simp at h
  · simp only [Option.some.injEq, Prod.mk.injEq] at h
    rw [h.1]
  · simp at h
  · split_ifs at h
    · simp only [Option.some.injEq, Prod.mk.injEq] at h
      rw [h.1]
    · simp at h

/-! ### One-dimensional bounds along the traveled segment -/

lemma convex_lower {a b t : ℝ} (ha : 0 ≤ a) (hb : 0 ≤ b) (ht0 : 0 ≤ t) (ht1 : t ≤ 1) :
    0 ≤ a + t * (b - a) := by
  nlinarith [mul_nonneg ht0 hb, mul_nonneg (sub_nonneg.mpr ht1) ha]

lemma convex_upper {a b t M : ℝ} (ha : a ≤ M) (hb : b ≤ M) (ht0 : 0 ≤ t) (ht1 : t ≤ 1) :
    a + t * (b - a) ≤ M := by
  nlinarith [mul_nonneg ht0 (sub_nonneg.mpr hb), mul_nonneg (sub_nonneg.mpr ht1) (sub_nonneg.mpr ha)]

lemma mono_lower {a b t m : ℝ} (ht0 : 0 ≤ t) (hba : 0 ≤ b - a) (ham : m ≤ a) :
    m ≤ a + t * (b - a) := by
  nlinarith [mul_nonneg ht0 hba]

lemma mono_upper {a b t M : ℝ} (ht0 : 0 ≤ t) (hba : b - a ≤ 0) (haM : a ≤ M) :
    a + t * (b - a) ≤ M := by
  nlinarith [mul_nonneg ht0 (by linarith : (0:ℝ) ≤ a - b)]

lemma cross_lower {a b t s : ℝ} (h : s * (a - b) = a) (hab : 0 < a - b)
    (ht0 : 0 ≤ t) (hts : t ≤ s) : 0 ≤ a + t * (b - a) := by
  nlinarith [mul_le_mul_of_nonneg_right hts (le_of_lt hab)]

lemma cross_upper {a b t s M : ℝ} (h : s * (b - a) = M - a) (hab : 0 < b - a)
    (ht0 : 0 ≤ t) (hts : t ≤ s) : a + t * (b - a) ≤ M := by
  nlinarith [mul_le_mul_of_nonneg_right hts (le_of_lt hab)]

/-- If the start lies in the closed arena and the endpoint `cq` escapes it,
then at least one of the (contact-eligible) wall intersections is accepted. -/
lemma escape_accepts {p cq : Point}
    (hp1 : 0 ≤ p.1) (hp2 : p.1 ≤ 20) (hp3 : 0 ≤ p.2) (hp4 : p.2 ≤ 100)
    (hesc : cq.1 < 0 ∨ 20 < cq.1 ∨ cq.2 < 0 ∨ 100 < cq.2) :
    (cq.1 < 0 ∧ ∃ A, Line.intersect ⟨p, cq⟩ ⟨((0:ℝ), 0), (0, 100)⟩ = some A) ∨
    (20 < cq.1 ∧ ∃ A, Line.intersect ⟨p, cq⟩ ⟨((20:ℝ), 0), (20, 100)⟩ = some A) ∨
    (cq.2 < 0 ∧ ∃ A, Line.intersect ⟨p, cq⟩ ⟨((0:ℝ), 0), (20, 0)⟩ = some A) ∨
    (100 < cq.2 ∧ ∃ A, Line.intersect ⟨p, cq⟩ ⟨((0:ℝ), 100), (20, 100)⟩ = some A) := by
  by_cases h1 : cq.1 < 0
  · -- leftward escape
    have hdx : 0 < p.1 - cq.1 := by linarith
    have hne : p.1 - cq.1 ≠ 0 := ne_of_gt hdx
    have htx := div_mul_cancel₀ p.1 hne
    have htx0 : 0 ≤ p.1 / (p.1 - cq.1) := div_nonneg hp1 (le_of_lt hdx)
    have htx1 : p.1 / (p.1 - cq.1) ≤ 1 := (div_le_one hdx).mpr (by linarith)
    have htp : p.1 / (p.1 - cq.1) * (p.1 - cq.1) = p.1 - 0 := by rw [sub_zero]; exact htx
    by_cases hy1 : cq.2 < 0
    · -- also exits through the top; compare crossing parameters
      have hdy : 0 < p.2 - cq.2 := by linarith
      have hne2 : p.2 - cq.2 ≠ 0 := ne_of_gt hdy
      have hty := div_mul_cancel₀ p.2 hne2
      have hty0 : 0 ≤ p.2 / (p.2 - cq.2) := div_nonneg hp3 (le_of_lt hdy)
      have hty1 : p.2 / (p.2 - cq.2) ≤ 1 := (div_le_one hdy).mpr (by linarith)
      by_cases hcmp : p.1 / (p.1 - cq.1) ≤ p.2 / (p.2 - cq.2)
      · refine Or.inl ⟨h1, _, intersect_vwall_some hne htp htx0 htx1 ?_ ?_⟩
        · exact cross_lower hty hdy htx0 hcmp
        · exact mono_upper htx0 (by linarith) hp4
      · refine Or.inr (Or.inr (Or.inl ⟨hy1, _,
          intersect_hwall_some hne2 (by rw [sub_zero]; exact hty) hty0 hty1 ?_ ?_⟩))
        · exact cross_lower htx hdx hty0 (le_of_lt (not_le.mp hcmp))
        · exact mono_upper hty0 (by linarith) hp2
    · by_cases hy2 : 100 < cq.2
      · -- also exits through the bottom
        have hdy : 0 < cq.2 - p.2 := by linarith
        have hne2 : p.2 - cq.2 ≠ 0 := by intro hq; linarith
        have hty := div_mul_cancel₀ (100 - p.2) (ne_of_gt hdy)
        have hty0 : 0 ≤ (100 - p.2) / (cq.2 - p.2) := div_nonneg (by linarith) (le_of_lt hdy)
        have hty1 : (100 - p.2) / (cq.2 - p.2) ≤ 1 := (div_le_one hdy).mpr (by linarith)
        by_cases hcmp : p.1 / (p.1 - cq.1) ≤ (100 - p.2) / (cq.2 - p.2)
        · refine Or.inl ⟨h1, _, intersect_vwall_some hne htp htx0 htx1 ?_ ?_⟩
          · exact mono_lower htx0 (by linarith) hp3
          · exact cross_upper hty hdy htx0 hcmp
        · refine Or.inr (Or.inr (Or.inr ⟨hy2, _,
            intersect_hwall_some hne2 (by linear_combination -hty) hty0 hty1 ?_ ?_⟩))
          · exact cross_lower htx hdx hty0 (le_of_lt (not_le.mp hcmp))
          · exact mono_upper hty0 (by linarith) hp2
      · -- y stays inside `[0, 100]`
        refine Or.inl ⟨h1, _, intersect_vwall_some hne htp htx0 htx1 ?_ ?_⟩
        · exact convex_lower hp3 (by linarith) htx0 htx1
        · exact convex_upper hp4 (by linarith) htx0 htx1
  · by_cases h2 : 20 < cq.1
    · -- rightward escape
      have hdx : 0 < cq.1 - p.1 := by linarith
      have hne : p.1 - cq.1 ≠ 0 := by intro hq; linarith
      have htx := div_mul_cancel₀ (20 - p.1) (ne_of_gt hdx)
      have htx0 : 0 ≤ (20 - p.1) / (cq.1 - p.1) := div_nonneg (by linarith) (le_of_lt hdx)
      have htx1 : (20 - p.1) / (cq.1 - p.1) ≤ 1 := (div_le_one hdx).mpr (by linarith)
      have htp : (20 - p.1) / (cq.1 - p.1) * (p.1 - cq.1) = p.1 - 20 := by
        linear_combination -htx
      by_cases hy1 : cq.2 < 0
      · have hdy : 0 < p.2 - cq.2 := by linarith
        have hne2 : p.2 - cq.2 ≠ 0 := ne_of_gt hdy
        have hty := div_mul_cancel₀ p.2 hne2
        have hty0 : 0 ≤ p.2 / (p.2 - cq.2) := div_nonneg hp3 (le_of_lt hdy)
        have hty1 : p.2 / (p.2 - cq.2) ≤ 1 := (div_le_one hdy).mpr (by linarith)
        by_cases hcmp : (20 - p.1) / (cq.1 - p.1) ≤ p.2 / (p.2 - cq.2)
        · refine Or.inr (Or.inl ⟨h2, _, intersect_vwall_some hne htp htx0 htx1 ?_ ?_⟩)
          · exact cross_lower hty hdy htx0 hcmp
          · exact mono_upper htx0 (by linarith) hp4
        · refine Or.inr (Or.inr (Or.inl ⟨hy1, _,
            intersect_hwall_some hne2 (by rw [sub_zero]; exact hty) hty0 hty1 ?_ ?_⟩))
          · exact mono_lower hty0 (by linarith) hp1
          · exact cross_upper htx hdx hty0 (le_of_lt (not_le.mp hcmp))
      · by_cases hy2 : 100 < cq.2
        · have hdy : 0 < cq.2 - p.2 := by linarith
          have hne2 : p.2 - cq.2 ≠ 0 := by intro hq; linarith
          have hty := div_mul_cancel₀ (100 - p.2) (ne_of_gt hdy)
          have hty0 : 0 ≤ (100 - p.2) / (cq.2 - p.2) := div_nonneg (by linarith) (le_of_lt hdy)
          have hty1 : (100 - p.2) / (cq.2 - p.2) ≤ 1 := (div_le_one hdy).mpr (by linarith)
          by_cases hcmp : (20 - p.1) / (cq.1 - p.1) ≤ (100 - p.2) / (cq.2 - p.2)
          · refine Or.inr (Or.inl ⟨h2, _, intersect_vwall_some hne htp htx0 htx1 ?_ ?_⟩)
            · exact mono_lower htx0 (by linarith) hp3
            · exact cross_upper hty hdy htx0 hcmp
          · refine Or.inr (Or.inr (Or.inr ⟨hy2, _,
              intersect_hwall_some hne2 (by linear_combination -hty) hty0 hty1 ?_ ?_⟩))
            · exact mono_lower hty0 (by linarith) hp1
            · exact cross_upper htx hdx hty0 (le_of_lt (not_le.mp hcmp))
        · refine Or.inr (Or.inl ⟨h2, _, intersect_vwall_some hne htp htx0 htx1 ?_ ?_⟩)
          · exact convex_lower hp3 (by linarith) htx0 htx1
          · exact convex_upper hp4 (by linarith) htx0 htx1
    · -- x stays inside `[0, 20]`; escape must be vertical
      rcases hesc with h | h | h | h
      · exact absurd h h1
      · exact absurd h h2
      · have hdy : 0 < p.2 - cq.2 := by linarith
        have hne2 : p.2 - cq.2 ≠ 0 := ne_of_gt hdy
        have hty := div_mul_cancel₀ p.2 hne2
        have hty0 : 0 ≤ p.2 / (p.2 - cq.2) := div_nonneg hp3 (le_of_lt hdy)
        have hty1 : p.2 / (p.2 - cq.2) ≤ 1 := (div_le_one hdy).mpr (by linarith)
        refine Or.inr (Or.inr (Or.inl ⟨h, _,
          intersect_hwall_some hne2 (by rw [sub_zero]; exact hty) hty0 hty1 ?_ ?_⟩))
        · exact convex_lower hp1 (by linarith) hty0 hty1
        · exact convex_upper hp2 (by linarith) hty0 hty1
      · have hdy : 0 < cq.2 - p.2 := by linarith
        have hne2 : p.2 - cq.2 ≠ 0 := by intro hq; linarith
        have hty := div_mul_cancel₀ (100 - p.2) (ne_of_gt hdy)
        have hty0 : 0 ≤ (100 - p.2) / (cq.2 - p.2) := div_nonneg (by linarith) (le_of_lt hdy)
        have hty1 : (100 - p.2) / (cq.2 - p.2) ≤ 1 := (div_le_one hdy).mpr (by linarith)
        refine Or.inr (Or.inr (Or.inr ⟨h, _,
          intersect_hwall_some hne2 (by linear_combination -hty) hty0 hty1 ?_ ?_⟩))
        · exact convex_lower hp1 (by linarith) hty0 hty1
        · exact convex_upper hp2 (by linarith) hty0 hty1

lemma ix_some_elim {p : Point} {v : Velocity} {A : Point} (h : ix p v = some A) :
    ((candidate p v).1 < 0 ∧
      Line.intersect ⟨p, candidate p v⟩ ⟨((0:ℝ), 0), (0, 100)⟩ = some A) ∨
    (¬(candidate p v).1 < 0 ∧ 20 ≤ (candidate p v).1 ∧
      Line.intersect ⟨p, candidate p v⟩ ⟨((20:ℝ), 0), (20, 100)⟩ = some A) := by
  by_cases h1 : (candidate p v).1 < 0
  · rw [ix_eq_of_lt h1, traveled_eq, left_wall_eq] at h
    exact Or.inl ⟨h1, h⟩
  · by_cases h2 : ((PLAY_AREA_SIZE.1 : ℕ) : ℝ) ≤ (candidate p v).1
    · rw [ix_eq_of_ge h1 h2, traveled_eq, right_wall_eq] at h
      exact Or.inr ⟨h1, by simpa using h2, h⟩
    · rw [ix_eq_none h1 h2] at h
      simp at h

lemma iy_some_elim {p : Point} {v : Velocity} {A : Point} (h : iy p v = some A) :
    ((candidate p v).2 < 0 ∧
      Line.intersect ⟨p, candidate p v⟩ ⟨((0:ℝ), 0), (20, 0)⟩ = some A) ∨
    (¬(candidate p v).2 < 0 ∧ 100 ≤ (candidate p v).2 ∧
      Line.intersect ⟨p, candidate p v⟩ ⟨((0:ℝ), 100), (20, 100)⟩ = some A) := by
  by_cases h1 : (candidate p v).2 < 0
  · rw [iy_eq_of_lt h1, traveled_eq, top_wall_eq] at h
    exact Or.inl ⟨h1, h⟩
  · by_cases h2 : ((PLAY_AREA_SIZE.2 : ℕ) : ℝ) ≤ (candidate p v).2
    · rw [iy_eq_of_ge h1 h2, traveled_eq, bottom_wall_eq] at h
      exact Or.inr ⟨h1, by simpa using h2, h⟩
    · rw [iy_eq_none h1 h2] at h
      simp at h

/-- Characterization of an x-wall bounce chosen by `selectBounce`. -/
lemma bounce_true_spec {p : Point} {v : Velocity} {A : Point}
    (h : selectBounce p v = some (A, true)) :
    p.1 ≠ (candidate p v).1 ∧ ∃ t : ℝ, 0 ≤ t ∧ t ≤ 1 ∧
      A.1 = p.1 + t * ((candidate p v).1 - p.1) ∧
      A.2 = p.2 + t * ((candidate p v).2 - p.2) ∧
      0 ≤ A.2 ∧ A.2 ≤ 100 ∧
      ((A.1 = 0 ∧ (candidate p v).1 < 0) ∨
       (A.1 = 20 ∧ 20 ≤ (candidate p v).1 ∧ ¬(candidate p v).1 < 0)) := by
  rcases ix_some_elim (selectBounce_true_ix h) with ⟨hc, hI⟩ | ⟨hc, hc', hI⟩
  · obtain ⟨hne, t, ht0, ht1, e1, e2, hw, hb0, hb1⟩ := vwall_inv hI
    exact ⟨hne, t, ht0, ht1, e1, e2, hb0, hb1, Or.inl ⟨hw, hc⟩⟩
  · obtain ⟨hne, t, ht0, ht1, e1, e2, hw, hb0, hb1⟩ := vwall_inv hI
    exact ⟨hne, t, ht0, ht1, e1, e2, hb0, hb1, Or.inr ⟨hw, hc', hc⟩⟩

/-- Characterization of a y-wall bounce chosen by `selectBounce`. -/
lemma bounce_false_spec {p : Point} {v : Velocity} {A : Point}
    (h : selectBounce p v = some (A, false)) :
    p.2 ≠ (candidate p v).2 ∧ ∃ t : ℝ, 0 ≤ t ∧ t ≤ 1 ∧
      A.1 = p.1 + t * ((candidate p v).1 - p.1) ∧
      A.2 = p.2 + t * ((candidate p v).2 - p.2) ∧
      0 ≤ A.1 ∧ A.1 ≤ 20 ∧
      ((A.2 = 0 ∧ (candidate p v).2 < 0) ∨
       (A.2 = 100 ∧ 100 ≤ (candidate p v).2 ∧ ¬(candidate p v).2 < 0)) := by
  rcases iy_some_elim (selectBounce_false_iy h) with ⟨hc, hI⟩ | ⟨hc, hc', hI⟩
  · obtain ⟨hne, t, ht0, ht1, e1, e2, hw, hb0, hb1⟩ := hwall_inv hI
    exact ⟨hne, t, ht0, ht1, e1, e2, hb0, hb1, Or.inl ⟨hw, hc⟩⟩
  · obtain ⟨hne, t, ht0, ht1, e1, e2, hw, hb0, hb1⟩ := hwall_inv hI
    exact ⟨hne, t, ht0, ht1, e1, e2, hb0, hb1, Or.inr ⟨hw, hc', hc⟩⟩

/-- The Euclidean distance from the start to a point at parameter `t` of the
traveled segment is `t` times the velocity's distance. -/
lemma calc_distance_param {p : Point} {v : Velocity} {A : Point} {t : ℝ}
    (hd : 0 ≤ v.distance) (ht0 : 0 ≤ t)
    (e1 : A.1 = p.1 + t * ((candidate p v).1 - p.1))
    (e2 : A.2 = p.2 + t * ((candidate p v).2 - p.2)) :
    calc_distance p A = t * v.distance := by
  have hc1 : (candidate p v).1 - p.1 = v.distance * Real.cos v.direction := by
    simp [candidate]
  have hc2 : (candidate p v).2 - p.2 = v.distance * Real.sin v.direction := by
    simp [candidate]
  have key : (A.1 - p.1) ^ 2 + (A.2 - p.2) ^ 2 = (t * v.distance) ^ 2 := by
    rw [e1, hc1] ; rw [e2, hc2]
    linear_combination (t * v.distance) ^ 2 * Real.sin_sq_add_cos_sq v.direction
  rw [calc_distance, key, Real.sqrt_sq (mul_nonneg ht0 hd)]

/-- If `selectBounce` returns no bounce, the candidate endpoint stays in the
closed arena (for starts inside the closed arena). -/
lemma candidate_inArena_of_none {p : Point} {v : Velocity} (hp : inArena p)
    (hsel : selectBounce p v = none) : inArena (candidate p v) := by
  rw [selectBounce_eq_none_iff] at hsel
  obtain ⟨hp1, hp2, hp3, hp4⟩ := hp
  by_contra hq
  have hesc : (candidate p v).1 < 0 ∨ 20 < (candidate p v).1 ∨
      (candidate p v).2 < 0 ∨ 100 < (candidate p v).2 := by
    by_contra hq2
    push_neg at hq2
    exact hq ⟨hq2.1, hq2.2.1, hq2.2.2.1, hq2.2.2.2⟩
  rcases escape_accepts hp1 hp2 hp3 hp4 hesc with
    ⟨h, A, hA⟩ | ⟨h, A, hA⟩ | ⟨h, A, hA⟩ | ⟨h, A, hA⟩
  · have := hsel.1
    rw [ix_eq_of_lt h, traveled_eq, left_wall_eq, hA] at this
    simp at this
  · have := hsel.1
    rw [ix_eq_of_ge (by linarith) (by rw [play_area_fst]; linarith),
      traveled_eq, right_wall_eq, hA] at this
    simp at this
  · have := hsel.2
    rw [iy_eq_of_lt h, traveled_eq, top_wall_eq, hA] at this
    simp at this
  · have := hsel.2
    rw [iy_eq_of_ge (by linarith) (by rw [play_area_snd]; linarith),
      traveled_eq, bottom_wall_eq, hA] at this
    simp at this

lemma calc_distance_nonneg (p q : Point) : 0 ≤ calc_distance p q :=
  Real.sqrt_nonneg _

/-- A selected bounce point lies in the closed arena, and the remaining
budget after subtracting the distance to it stays non-negative. -/
lemma bounce_inArena_budget {p : Point} {v : Velocity} {A : Point} {isx : Bool}
    (hd : 0 ≤ v.distance) (h : selectBounce p v = some (A, isx)) :
    inArena A ∧ 0 ≤ v.distance - calc_distance p A := by
  cases isx
  · obtain ⟨-, t, ht0, ht1, e1, e2, hb0, hb1, hw⟩ := bounce_false_spec h
    have hdist := calc_distance_param hd ht0 e1 e2
    have h2 : 0 ≤ A.2 ∧ A.2 ≤ 100 := by
      rcases hw with ⟨hw, -⟩ | ⟨hw, -, -⟩ <;> rw [hw] <;> norm_num
    refine ⟨⟨hb0, hb1, h2.1, h2.2⟩, ?_⟩
    rw [hdist]
    linarith [mul_le_of_le_one_left hd ht1]
  · obtain ⟨-, t, ht0, ht1, e1, e2, hb0, hb1, hw⟩ := bounce_true_spec h
    have hdist := calc_distance_param hd ht0 e1 e2
    have h2 : 0 ≤ A.1 ∧ A.1 ≤ 20 := by
      rcases hw with ⟨hw, -⟩ | ⟨hw, -, -⟩ <;> rw [hw] <;> norm_num
    refine ⟨⟨h2.1, h2.2, hb0, hb1⟩, ?_⟩
    rw [hdist]
    linarith [mul_le_of_le_one_left hd ht1]

/-- Arena invariant: any result of `get_new_position` (at any fuel) from a
start in the closed arena with non-negative distance stays in the closed
arena. -/
lemma gnp_inArena (n : ℕ) : ∀ (p : Point) (v : Velocity) (r : Point × Velocity),
    inArena p → 0 ≤ v.distance → get_new_position n p v = some r → inArena r.1 := by
  induction n with
  | zero => intro p v r _ _ h; simp [get_new_position] at h
  | succ n IH =>
    intro p v r hp hd h
    simp only [get_new_position] at h
    cases hsel : selectBounce p v with
    | none =>
      simp only [hsel] at h
      obtain rfl := Option.some_inj.mp h
      exact candidate_inArena_of_none hp hsel
    | some ab =>
      obtain ⟨A, isx⟩ := ab
      simp only [hsel] at h
      cases hrec : get_new_position n A
          ⟨reflect_direction isx v.direction, v.distance - calc_distance p A⟩ with
      | none => rw [hrec] at h; exact absurd h (by simp)
      | some rec_r =>
        obtain ⟨np, v2⟩ := rec_r
        rw [hrec] at h
        obtain ⟨hA, hbud⟩ := bounce_inArena_budget hd hsel
        have hres := IH A ⟨reflect_direction isx v.direction,
          v.distance - calc_distance p A⟩ (np, v2) hA hbud hrec
        obtain rfl := Option.some_inj.mp h
        exact hres

/-! ### Unfolding helpers and structural facts for `get_new_position` -/

lemma gnp_succ_of_none {n : ℕ} {p : Point} {v : Velocity}
    (hsel : selectBounce p v = none) :
    get_new_position (n + 1) p v = some (candidate p v, v) := by
  simp only [get_new_position, hsel]

lemma gnp_succ_of_bounce {n : ℕ} {p : Point} {v : Velocity} {A : Point} {isx : Bool}
    {np : Point} {v2 : Velocity} (hsel : selectBounce p v = some (A, isx))
    (hrec : get_new_position n A ⟨reflect_direction isx v.direction,
        v.distance - calc_distance p A⟩ = some (np, v2)) :
    get_new_position (n + 1) p v = some (np, ⟨v2.direction, v.distance⟩) := by
  simp only [get_new_position, hsel, hrec]

/-- The distance field of the returned velocity always equals the input's. -/
lemma gnp_distance_eq {n : ℕ} {p : Point} {v : Velocity} {r : Point × Velocity}
    (h : get_new_position n p v = some r) : r.2.distance = v.distance := by
  cases n with
  | zero => simp [get_new_position] at h
  | succ n =>
    simp only [get_new_position] at h
    cases hsel : selectBounce p v with
    | none =>
      simp only [hsel] at h
      obtain rfl := Option.some_inj.mp h
      rfl
    | some ab =>
      obtain ⟨A, isx⟩ := ab
      simp only [hsel] at h
      cases hrec : get_new_position n A
          ⟨reflect_direction isx v.direction, v.distance - calc_distance p A⟩ with
      | none => rw [hrec] at h; exact absurd h (by simp)
      | some rec_r =>
        obtain ⟨np, v2⟩ := rec_r
        rw [hrec] at h
        obtain rfl := Option.some_inj.mp h
        rfl

/-- Fuel monotonicity: a result at fuel `n` persists at fuel `n + 1`. -/
lemma gnp_mono (n : ℕ) : ∀ {p : Point} {v : Velocity} {r : Point × Velocity},
    get_new_position n p v = some r → get_new_position (n + 1) p v = some r := by
  induction n with
  | zero => intro p v r h; simp [get_new_position] at h
  | succ n IH =>
    intro p v r h
    cases hsel : selectBounce p v with
    | none =>
      rw [gnp_succ_of_none hsel] at h
      rw [gnp_succ_of_none hsel]
      exact h
    | some ab =>
      obtain ⟨A, isx⟩ := ab
      cases hrec : get_new_position n A
          ⟨reflect_direction isx v.direction, v.distance - calc_distance p A⟩ with
      | none =>
        simp only [get_new_position, hsel, hrec] at h
        exact absurd h (by simp)
      | some rr =>
        obtain ⟨np, v2⟩ := rr
        rw [gnp_succ_of_bounce hsel hrec] at h
        rw [gnp_succ_of_bounce hsel (IH hrec)]
        exact h

/-! ### Reflection trigonometry -/

lemma reflect_true_cos (θ : ℝ) :
    Real.cos (reflect_direction true θ) = -Real.cos θ := by
  simp [reflect_direction, Real.cos_pi_sub]

lemma reflect_true_sin (θ : ℝ) :
    Real.sin (reflect_direction true θ) = Real.sin θ := by
  simp [reflect_direction, Real.sin_pi_sub]

lemma reflect_false_cos (θ : ℝ) :
    Real.cos (reflect_direction false θ) = Real.cos θ := by
  simp [reflect_direction, Real.cos_two_pi_sub]

lemma reflect_false_sin (θ : ℝ) :
    Real.sin (reflect_direction false θ) = -Real.sin θ := by
  simp [reflect_direction, Real.sin_two_pi_sub]

lemma candidate_sub_fst (p : Point) (v : Velocity) :
    (candidate p v).1 - p.1 = v.distance * Real.cos v.direction := by
  simp [candidate]

lemma candidate_sub_snd (p : Point) (v : Velocity) :
    (candidate p v).2 - p.2 = v.distance * Real.sin v.direction := by
  simp [candidate]

/-! ### Zero-distance behaviour -/

lemma candidate_zero {p : Point} {v : Velocity} (h : v.distance = 0) :
    candidate p v = p := by
  simp [candidate, h]

lemma ix_of_zero {p : Point} {v : Velocity} (h : v.distance = 0) : ix p v = none := by
  rcases hxc : x_contact p v with _ | w
  · rw [ix, hxc]; rfl
  · rw [ix, hxc]
    show (traveled p v).intersect w = none
    apply intersect_none_of_deg
    · show p.1 = (candidate p v).1
      rw [candidate_zero h]
    · show p.2 = (candidate p v).2
      rw [candidate_zero h]

lemma iy_of_zero {p : Point} {v : Velocity} (h : v.distance = 0) : iy p v = none := by
  rcases hyc : y_contact p v with _ | w
  · rw [iy, hyc]; rfl
  · rw [iy, hyc]
    show (traveled p v).intersect w = none
    apply intersect_none_of_deg
    · show p.1 = (candidate p v).1
      rw [candidate_zero h]
    · show p.2 = (candidate p v).2
      rw [candidate_zero h]

lemma selectBounce_of_zero {p : Point} {v : Velocity} (h : v.distance = 0) :
    selectBounce p v = none :=
  selectBounce_eq_none_iff.mpr ⟨ix_of_zero h, iy_of_zero h⟩

/-! ### Floor arithmetic for the potential -/

lemma floor_div_shift20 (E : ℝ) : ⌊(E + 20) / 20⌋ = ⌊E / 20⌋ + 1 := by
  rw [show (E + 20) / 20 = E / 20 + 1 by ring, Int.floor_add_one]

lemma floor_div_shift100 (E : ℝ) : ⌊(E + 100) / 100⌋ = ⌊E / 100⌋ + 1 := by
  rw [show (E + 100) / 100 = E / 100 + 1 by ring, Int.floor_add_one]

/-- At an x-wall bounce, either the whole budget is consumed or the
potential's x-component decreases by exactly one while the y-component is
preserved. -/
lemma phi_decrease_true {p : Point} {v : Velocity} {A : Point}
    (hd : 0 ≤ v.distance) (h : selectBounce p v = some (A, true)) :
    v.distance - calc_distance p A = 0 ∨
    (phiX A ⟨reflect_direction true v.direction, v.distance - calc_distance p A⟩
        = phiX p v - 1 ∧
     phiY A ⟨reflect_direction true v.direction, v.distance - calc_distance p A⟩
        = phiY p v ∧
     1 ≤ phiX p v) := by
  obtain ⟨hne, t, ht0, ht1, e1, e2, hb0, hb1, hw⟩ := bounce_true_spec h
  have hdist := calc_distance_param hd ht0 e1 e2
  rw [candidate_sub_fst] at e1
  rw [candidate_sub_snd] at e2
  rcases eq_or_lt_of_le ht1 with rfl | ht1lt
  · left; rw [hdist]; ring
  right
  have hdc_ne : v.distance * Real.cos v.direction ≠ 0 := by
    intro hq
    apply hne
    have := candidate_sub_fst p v
    linarith
  -- the y-component is preserved in both wall sub-cases
  have hphiY : phiY A ⟨reflect_direction true v.direction,
      v.distance - calc_distance p A⟩ = phiY p v := by
    simp only [phiY]
    rw [reflect_true_sin, hdist]
    by_cases hs : 0 < Real.sin v.direction
    · rw [if_pos hs, if_pos hs, abs_of_pos hs]
      congr 1
      linear_combination e2 / 100
    · rw [if_neg hs, if_neg hs, abs_of_nonpos (not_lt.mp hs)]
      congr 1
      linear_combination -e2 / 100
  rcases hw with ⟨hA1, hcand⟩ | ⟨hA1, hc20, -⟩
  · -- left wall
    have hcand' : p.1 + v.distance * Real.cos v.direction < 0 := by
      have := candidate_sub_fst p v
      linarith
    have htdc : t * (v.distance * Real.cos v.direction) = -p.1 := by
      linear_combination hA1 - e1
    have hcneg : Real.cos v.direction < 0 := by
      by_contra hcge
      push_neg at hcge
      have h0dc : 0 ≤ v.distance * Real.cos v.direction := mul_nonneg hd hcge
      have hmul := mul_le_mul_of_nonneg_right ht1 h0dc
      linarith
    refine ⟨?_, hphiY, ?_⟩
    · simp only [phiX]
      rw [reflect_true_cos, hdist, abs_neg,
        if_pos (by linarith : (0:ℝ) < -Real.cos v.direction),
        if_neg (by linarith : ¬(0:ℝ) < Real.cos v.direction),
        abs_of_neg hcneg, hA1]
      rw [show v.distance * -Real.cos v.direction + (20 - p.1) =
        ((v.distance - t * v.distance) * -Real.cos v.direction + 0) + 20 by
          linear_combination -htdc]
      rw [floor_div_shift20]
      omega
    · simp only [phiX]
      rw [if_neg (by linarith : ¬(0:ℝ) < Real.cos v.direction), abs_of_neg hcneg,
        Int.le_floor]
      rw [le_div_iff₀ (by norm_num : (0:ℝ) < 20)]
      push_cast
      linarith
  · -- right wall
    have hcand' : 20 ≤ p.1 + v.distance * Real.cos v.direction := by
      have := candidate_sub_fst p v
      linarith
    have htdc : t * (v.distance * Real.cos v.direction) = 20 - p.1 := by
      linear_combination hA1 - e1
    have hcpos : 0 < Real.cos v.direction := by
      by_contra hcle
      push_neg at hcle
      have hdc_le : v.distance * Real.cos v.direction ≤ 0 :=
        mul_nonpos_iff.mpr (Or.inl ⟨hd, hcle⟩)
      have hmul := mul_le_mul_of_nonpos_right ht1 hdc_le
      have hzero : (1 - t) * (v.distance * Real.cos v.direction) = 0 := by
        nlinarith
      rcases mul_eq_zero.mp hzero with hq | hq
      · linarith
      · exact hdc_ne hq
    refine ⟨?_, hphiY, ?_⟩
    · simp only [phiX]
      rw [reflect_true_cos, hdist, abs_neg,
        if_neg (by linarith : ¬(0:ℝ) < -Real.cos v.direction),
        if_pos hcpos, abs_of_pos hcpos, hA1]
      rw [show v.distance * Real.cos v.direction + p.1 =
        ((v.distance - t * v.distance) * Real.cos v.direction + (20 - 20)) + 20 by
          linear_combination htdc]
      rw [floor_div_shift20]
      omega
    · simp only [phiX]
      rw [if_pos hcpos, abs_of_pos hcpos, Int.le_floor]
      rw [le_div_iff₀ (by norm_num : (0:ℝ) < 20)]
      push_cast
      linarith

/-- At a y-wall bounce, either the whole budget is consumed or the
potential's y-component decreases by exactly one while the x-component is
preserved. -/
lemma phi_decrease_false {p : Point} {v : Velocity} {A : Point}
    (hd : 0 ≤ v.distance) (h : selectBounce p v = some (A, false)) :
    v.distance - calc_distance p A = 0 ∨
    (phiY A ⟨reflect_direction false v.direction, v.distance - calc_distance p A⟩
        = phiY p v - 1 ∧
     phiX A ⟨reflect_direction false v.direction, v.distance - calc_distance p A⟩
        = phiX p v ∧
     1 ≤ phiY p v) := by
  obtain ⟨hne, t, ht0, ht1, e1, e2, hb0, hb1, hw⟩ := bounce_false_spec h
  have hdist := calc_distance_param hd ht0 e1 e2
  rw [candidate_sub_fst] at e1
  rw [candidate_sub_snd] at e2
  rcases eq_or_lt_of_le ht1 with rfl | ht1lt
  · left; rw [hdist]; ring
  right
  have hds_ne : v.distance * Real.sin v.direction ≠ 0 := by
    intro hq
    apply hne
    have := candidate_sub_snd p v
    linarith
  have hphiX : phiX A ⟨reflect_direction false v.direction,
      v.distance - calc_distance p A⟩ = phiX p v := by
    simp only [phiX]
    rw [reflect_false_cos, hdist]
    by_cases hc : 0 < Real.cos v.direction
    · rw [if_pos hc, if_pos hc, abs_of_pos hc]
      congr 1
      linear_combination e1 / 20
    · rw [if_neg hc, if_neg hc, abs_of_nonpos (not_lt.mp hc)]
      congr 1
      linear_combination -e1 / 20
  rcases hw with ⟨hA2, hcand⟩ | ⟨hA2, hc100, -⟩
  · -- top wall
    have hcand' : p.2 + v.distance * Real.sin v.direction < 0 := by
      have := candidate_sub_snd p v
      linarith
    have htds : t * (v.distance * Real.sin v.direction) = -p.2 := by
      linear_combination hA2 - e2
    have hsneg : Real.sin v.direction < 0 := by
      by_contra hsge
      push_neg at hsge
      have h0ds : 0 ≤ v.distance * Real.sin v.direction := mul_nonneg hd hsge
      have hmul := mul_le_mul_of_nonneg_right ht1 h0ds
      linarith
    refine ⟨?_, hphiX, ?_⟩
    · simp only [phiY]
      rw [reflect_false_sin, hdist, abs_neg,
        if_pos (by linarith : (0:ℝ) < -Real.sin v.direction),
        if_neg (by linarith : ¬(0:ℝ) < Real.sin v.direction),
        abs_of_neg hsneg, hA2]
      rw [show v.distance * -Real.sin v.direction + (100 - p.2) =
        ((v.distance - t * v.distance) * -Real.sin v.direction + 0) + 100 by
          linear_combination -htds]
      rw [floor_div_shift100]
      omega
    · simp only [phiY]
      rw [if_neg (by linarith : ¬(0:ℝ) < Real.sin v.direction), abs_of_neg hsneg,
        Int.le_floor]
      rw [le_div_iff₀ (by norm_num : (0:ℝ) < 100)]
      push_cast
      linarith
  · -- bottom wall
    have hcand' : 100 ≤ p.2 + v.distance * Real.sin v.direction := by
      have := candidate_sub_snd p v
      linarith
    have htds : t * (v.distance * Real.sin v.direction) = 100 - p.2 := by
      linear_combination hA2 - e2
    have hspos : 0 < Real.sin v.direction := by
      by_contra hsle
      push_neg at hsle
      have hds_le : v.distance * Real.sin v.direction ≤ 0 :=
        mul_nonpos_iff.mpr (Or.inl ⟨hd, hsle⟩)
      have hmul := mul_le_mul_of_nonpos_right ht1 hds_le
      have hzero : (1 - t) * (v.distance * Real.sin v.direction) = 0 := by
        nlinarith
      rcases mul_eq_zero.mp hzero with hq | hq
      · linarith
      · exact hds_ne hq
    refine ⟨?_, hphiX, ?_⟩
    · simp only [phiY]
      rw [reflect_false_sin, hdist, abs_neg,
        if_neg (by linarith : ¬(0:ℝ) < -Real.sin v.direction),
        if_pos hspos, abs_of_pos hspos, hA2]
      rw [show v.distance * Real.sin v.direction + p.2 =
        ((v.distance - t * v.distance) * Real.sin v.direction + (100 - 100)) + 100 by
          linear_combination htds]
      rw [floor_div_shift100]
      omega
    · simp only [phiY]
      rw [if_pos hspos, abs_of_pos hspos, Int.le_floor]
      rw [le_div_iff₀ (by norm_num : (0:ℝ) < 100)]
      push_cast
      linarith

/-- Totality: fuel `potential p v + 2` always produces a result. -/
lemma gnp_terminates (n : ℕ) : ∀ (p : Point) (v : Velocity), 0 ≤ v.distance →
    potential p v ≤ n → ∃ r, get_new_position (n + 2) p v = some r := by
  induction n with
  | zero =>
    intro p v hd hpot
    cases hsel : selectBounce p v with
    | none => exact ⟨_, gnp_succ_of_none hsel⟩
    | some ab =>
      obtain ⟨A, isx⟩ := ab
      have hzero : v.distance - calc_distance p A = 0 := by
        cases isx
        · rcases phi_decrease_false hd hsel with h0 | ⟨-, -, h1⟩
          · exact h0
          · exfalso
            unfold potential at hpot
            omega
        · rcases phi_decrease_true hd hsel with h0 | ⟨-, -, h1⟩
          · exact h0
          · exfalso
            unfold potential at hpot
            omega
      have hsel2 := selectBounce_of_zero (p := A)
        (v := ⟨reflect_direction isx v.direction, v.distance - calc_distance p A⟩) hzero
      exact ⟨_, gnp_succ_of_bounce hsel (gnp_succ_of_none hsel2)⟩
  | succ n IH =>
    intro p v hd hpot
    cases hsel : selectBounce p v with
    | none => exact ⟨_, gnp_succ_of_none hsel⟩
    | some ab =>
      obtain ⟨A, isx⟩ := ab
      have hbud := (bounce_inArena_budget hd hsel).2
      cases isx
      · rcases phi_decrease_false hd hsel with h0 | ⟨hy, hx, h1⟩
        · have hsel2 := selectBounce_of_zero (p := A)
            (v := ⟨reflect_direction false v.direction, v.distance - calc_distance p A⟩) h0
          exact ⟨_, gnp_succ_of_bounce hsel (gnp_succ_of_none hsel2)⟩
        · have hpot' : potential A ⟨reflect_direction false v.direction,
              v.distance - calc_distance p A⟩ ≤ n := by
            unfold potential at hpot ⊢
            rw [hx, hy]
            omega
          obtain ⟨r, hr⟩ := IH A _ hbud hpot'
          obtain ⟨np, v2⟩ := r
          exact ⟨_, gnp_succ_of_bounce hsel hr⟩
      · rcases phi_decrease_true hd hsel with h0 | ⟨hx, hy, h1⟩
        · have hsel2 := selectBounce_of_zero (p := A)
            (v := ⟨reflect_direction true v.direction, v.distance - calc_distance p A⟩) h0
          exact ⟨_, gnp_succ_of_bounce hsel (gnp_succ_of_none hsel2)⟩
        · have hpot' : potential A ⟨reflect_direction true v.direction,
              v.distance - calc_distance p A⟩ ≤ n := by
            unfold potential at hpot ⊢
            rw [hx, hy]
            omega
          obtain ⟨r, hr⟩ := IH A _ hbud hpot'
          obtain ⟨np, v2⟩ := r
          exact ⟨_, gnp_succ_of_bounce hsel hr⟩

/-- When both the x-wall entry and the y-wall entry of the intersections
vector exist, they are the same point: the traveled segment can only touch
two walls at a common (corner) point. -/
lemma both_intersections_eq {p : Point} {v : Velocity} {a b : Point}
    (hax : ix p v = some a) (hby : iy p v = some b) : a = b := by
  have hxelim := ix_some_elim hax
  have hyelim := iy_some_elim hby
  rcases hxelim with ⟨hcx, hIa⟩ | ⟨hcx_not, hcx, hIa⟩ <;>
    obtain ⟨hneX, tx, htx0, htx1, ea1, ea2, haw, hab0, hab1⟩ := vwall_inv hIa <;>
    rcases hyelim with ⟨hcy, hIb⟩ | ⟨hcy_not, hcy, hIb⟩ <;>
    obtain ⟨hneY, ty, hty0, hty1, eb1, eb2, hbw, hbb0, hbb1⟩ := hwall_inv hIb <;>
    have hdx_ne : (candidate p v).1 - p.1 ≠ 0 := fun hq => hneX (by linarith) <;>
    have hdy_ne : (candidate p v).2 - p.2 ≠ 0 := fun hq => hneY (by linarith)
  · -- left wall and top wall
    have hdxneg : (candidate p v).1 - p.1 < 0 := by
      rcases lt_or_ge ((candidate p v).1 - p.1) 0 with hq | hq
      · exact hq
      · exfalso
        have hmul := mul_le_mul_of_nonneg_right htx1 hq
        linarith
    have hdyneg : (candidate p v).2 - p.2 < 0 := by
      rcases lt_or_ge ((candidate p v).2 - p.2) 0 with hq | hq
      · exact hq
      · exfalso
        have hmul := mul_le_mul_of_nonneg_right hty1 hq
        linarith
    by_cases hcmp : tx ≤ ty
    · have hb1e : b.1 = (ty - tx) * ((candidate p v).1 - p.1) := by
        linear_combination eb1 - ea1 + haw
      have hprod_le : (ty - tx) * ((candidate p v).1 - p.1) ≤ 0 :=
        mul_nonpos_iff.mpr (Or.inl ⟨by linarith, le_of_lt hdxneg⟩)
      have hzero : (ty - tx) * ((candidate p v).1 - p.1) = 0 :=
        le_antisymm hprod_le (by linarith)
      have htxty : tx = ty := by
        rcases mul_eq_zero.mp hzero with hq | hq
        · linarith
        · exact absurd hq hdx_ne
      exact Prod.ext_iff.mpr ⟨by rw [ea1, eb1, htxty], by rw [ea2, eb2, htxty]⟩
    · exfalso
      push_neg at hcmp
      have ha2e : a.2 = (tx - ty) * ((candidate p v).2 - p.2) := by
        linear_combination ea2 - eb2 + hbw
      have := mul_neg_of_pos_of_neg (by linarith : (0:ℝ) < tx - ty) hdyneg
      linarith
  · -- left wall and bottom wall
    have hdxneg : (candidate p v).1 - p.1 < 0 := by
      rcases lt_or_ge ((candidate p v).1 - p.1) 0 with hq | hq
      · exact hq
      · exfalso
        have hmul := mul_le_mul_of_nonneg_right htx1 hq
        linarith
    by_cases hcmp : tx ≤ ty
    · have hb1e : b.1 = (ty - tx) * ((candidate p v).1 - p.1) := by
        linear_combination eb1 - ea1 + haw
      have hprod_le : (ty - tx) * ((candidate p v).1 - p.1) ≤ 0 :=
        mul_nonpos_iff.mpr (Or.inl ⟨by linarith, le_of_lt hdxneg⟩)
      have hzero : (ty - tx) * ((candidate p v).1 - p.1) = 0 :=
        le_antisymm hprod_le (by linarith)
      have htxty : tx = ty := by
        rcases mul_eq_zero.mp hzero with hq | hq
        · linarith
        · exact absurd hq hdx_ne
      exact Prod.ext_iff.mpr ⟨by rw [ea1, eb1, htxty], by rw [ea2, eb2, htxty]⟩
    · exfalso
      push_neg at hcmp
      rcases lt_trichotomy ((candidate p v).2 - p.2) 0 with hdy | hdy | hdy
      · have h1 : p.2 + ty * ((candidate p v).2 - p.2) = 100 := by
          linear_combination hbw - eb2
        have hmul := mul_le_mul_of_nonpos_right hty1 (le_of_lt hdy)
        have heq : (candidate p v).2 - p.2 = ty * ((candidate p v).2 - p.2) :=
          le_antisymm (by linarith) (by linarith)
        have hzero : (1 - ty) * ((candidate p v).2 - p.2) = 0 := by
          linear_combination heq
        rcases mul_eq_zero.mp hzero with hq | hq
        · linarith
        · linarith
      · exact hdy_ne hdy
      · have ha2e : a.2 = 100 + (tx - ty) * ((candidate p v).2 - p.2) := by
          linear_combination ea2 - eb2 + hbw
        have := mul_pos (by linarith : (0:ℝ) < tx - ty) hdy
        linarith
  · -- right wall and top wall
    have hdyneg : (candidate p v).2 - p.2 < 0 := by
      rcases lt_or_ge ((candidate p v).2 - p.2) 0 with hq | hq
      · exact hq
      · exfalso
        have hmul := mul_le_mul_of_nonneg_right hty1 hq
        linarith
    by_cases hcmp : ty ≤ tx
    · have ha2e : a.2 = (tx - ty) * ((candidate p v).2 - p.2) := by
        linear_combination ea2 - eb2 + hbw
      have hprod_le : (tx - ty) * ((candidate p v).2 - p.2) ≤ 0 :=
        mul_nonpos_iff.mpr (Or.inl ⟨by linarith, le_of_lt hdyneg⟩)
      have hzero : (tx - ty) * ((candidate p v).2 - p.2) = 0 :=
        le_antisymm hprod_le (by linarith)
      have htxty : tx = ty := by
        rcases mul_eq_zero.mp hzero with hq | hq
        · linarith
        · exact absurd hq hdy_ne
      exact Prod.ext_iff.mpr ⟨by rw [ea1, eb1, htxty], by rw [ea2, eb2, htxty]⟩
    · exfalso
      push_neg at hcmp
      rcases lt_trichotomy ((candidate p v).1 - p.1) 0 with hdx | hdx | hdx
      · have h1 : p.1 + tx * ((candidate p v).1 - p.1) = 20 := by
          linear_combination haw - ea1
        have hmul := mul_le_mul_of_nonpos_right htx1 (le_of_lt hdx)
        have heq : (candidate p v).1 - p.1 = tx * ((candidate p v).1 - p.1) :=
          le_antisymm (by linarith) (by linarith)
        have hzero : (1 - tx) * ((candidate p v).1 - p.1) = 0 := by
          linear_combination heq
        rcases mul_eq_zero.mp hzero with hq | hq
        · linarith
        · linarith
      · exact hdx_ne hdx
      · have hb1e : b.1 = 20 + (ty - tx) * ((candidate p v).1 - p.1) := by
          linear_combination eb1 - ea1 + haw
        have := mul_pos (by linarith : (0:ℝ) < ty - tx) hdx
        linarith
  · -- right wall and bottom wall
    by_cases hcmp : tx ≤ ty
    · rcases lt_trichotomy ((candidate p v).1 - p.1) 0 with hdx | hdx | hdx
      · have h1 : p.1 + tx * ((candidate p v).1 - p.1) = 20 := by
          linear_combination haw - ea1
        have hmul := mul_le_mul_of_nonpos_right htx1 (le_of_lt hdx)
        have heq : (candidate p v).1 - p.1 = tx * ((candidate p v).1 - p.1) :=
          le_antisymm (by linarith) (by linarith)
        have hzero : (1 - tx) * ((candidate p v).1 - p.1) = 0 := by
          linear_combination heq
        rcases mul_eq_zero.mp hzero with hq | hq
        · have htxty : tx = ty := by linarith
          exact Prod.ext_iff.mpr ⟨by rw [ea1, eb1, htxty], by rw [ea2, eb2, htxty]⟩
        · exact absurd hq hdx_ne
      · exact absurd hdx hdx_ne
      · have hb1e : b.1 = 20 + (ty - tx) * ((candidate p v).1 - p.1) := by
          linear_combination eb1 - ea1 + haw
        have htxty : tx = ty := by
          by_contra hq
          have hlt : tx < ty := lt_of_le_of_ne hcmp hq
          have := mul_pos (by linarith : (0:ℝ) < ty - tx) hdx
          linarith
        exact Prod.ext_iff.mpr ⟨by rw [ea1, eb1, htxty], by rw [ea2, eb2, htxty]⟩
    · exfalso
      push_neg at hcmp
      rcases lt_trichotomy ((candidate p v).2 - p.2) 0 with hdy | hdy | hdy
      · have h1 : p.2 + ty * ((candidate p v).2 - p.2) = 100 := by
          linear_combination hbw - eb2
        have hmul := mul_le_mul_of_nonpos_right hty1 (le_of_lt hdy)
        have heq : (candidate p v).2 - p.2 = ty * ((candidate p v).2 - p.2) :=
          le_antisymm (by linarith) (by linarith)
        have hzero : (1 - ty) * ((candidate p v).2 - p.2) = 0 := by
          linear_combination heq
        rcases mul_eq_zero.mp hzero with hq | hq
        · linarith
        · linarith
      · exact hdy_ne hdy
      · have ha2e : a.2 = 100 + (tx - ty) * ((candidate p v).2 - p.2) := by
          linear_combination ea2 - eb2 + hbw
        have := mul_pos (by linarith : (0:ℝ) < tx - ty) hdy
        linarith

/-- With both intersections present, `min_by_key` selects the x-wall entry
(the keys tie because the points coincide, and the first entry wins). -/
lemma selectBounce_of_both {p : Point} {v : Velocity} {a b : Point}
    (hax : ix p v = some a) (hby : iy p v = some b) :
    selectBounce p v = some (a, true) := by
  have hab := both_intersections_eq hax hby
  subst hab
  simp only [selectBounce, hax, hby]
  rw [if_neg (lt_irrefl _)]

/-! ### Concrete evaluations used by witnesses and counterexamples -/

lemma calc_distance_self (p : Point) : calc_distance p p = 0 := by
  simp [calc_distance]

lemma calc_distance_pos {p A : Point} (h : A ≠ p) : 0 < calc_distance p A := by
  rw [calc_distance]
  apply Real.sqrt_pos.mpr
  have h1 : A.1 ≠ p.1 ∨ A.2 ≠ p.2 := by
    by_contra hq
    push_neg at hq
    exact h (Prod.ext_iff.mpr ⟨hq.1, hq.2⟩)
  rcases h1 with hq | hq
  · have h2 := pow_two_pos_of_ne_zero (sub_ne_zero.mpr hq)
    nlinarith [sq_nonneg (A.2 - p.2)]
  · have h2 := pow_two_pos_of_ne_zero (sub_ne_zero.mpr hq)
    nlinarith [sq_nonneg (A.1 - p.1)]

lemma cand_eval_simple : candidate ((1:ℝ), 1) ⟨0, 1⟩ = (2, 1) := by
  norm_num [candidate]

lemma gnp_eval_simple :
    get_new_position 1 ((1:ℝ), 1) ⟨0, 1⟩ = some (((2:ℝ), 1), ⟨0, 1⟩) := by
  have h1 : ¬(candidate ((1:ℝ), 1) ⟨0, 1⟩).1 < 0 := by
    rw [cand_eval_simple]; norm_num
  have h2 : ¬((PLAY_AREA_SIZE.1 : ℕ) : ℝ) ≤ (candidate ((1:ℝ), 1) ⟨0, 1⟩).1 := by
    rw [play_area_fst, cand_eval_simple]; norm_num
  have h3 : ¬(candidate ((1:ℝ), 1) ⟨0, 1⟩).2 < 0 := by
    rw [cand_eval_simple]; norm_num
  have h4 : ¬((PLAY_AREA_SIZE.2 : ℕ) : ℝ) ≤ (candidate ((1:ℝ), 1) ⟨0, 1⟩).2 := by
    rw [play_area_snd, cand_eval_simple]; norm_num
  rw [gnp_succ_of_none (selectBounce_eq_none_iff.mpr ⟨ix_eq_none h1 h2, iy_eq_none h3 h4⟩),
    cand_eval_simple]

lemma cand_eval_wall : candidate ((0:ℝ), 50) ⟨Real.pi, 1⟩ = (-1, 50) := by
  norm_num [candidate]

lemma ix_eval_wall : ix ((0:ℝ), 50) ⟨Real.pi, 1⟩ = some ((0:ℝ), 50) := by
  have hc : (candidate ((0:ℝ), 50) ⟨Real.pi, 1⟩).1 < 0 := by
    rw [cand_eval_wall]; norm_num
  rw [ix_eq_of_lt hc, traveled_eq, cand_eval_wall, left_wall_eq]
  have hI : Line.intersect ⟨((0:ℝ), 50), ((-1:ℝ), 50)⟩ ⟨((0:ℝ), 0), ((0:ℝ), 100)⟩ =
      some (((0:ℝ), (50:ℝ)).1 + 0 * (((-1:ℝ), (50:ℝ)).1 - ((0:ℝ), (50:ℝ)).1),
        ((0:ℝ), (50:ℝ)).2 + 0 * (((-1:ℝ), (50:ℝ)).2 - ((0:ℝ), (50:ℝ)).2)) := by
    apply intersect_vwall_some <;> norm_num
  rw [hI]
  norm_num

lemma sel_eval_wall :
    selectBounce ((0:ℝ), 50) ⟨Real.pi, 1⟩ = some (((0:ℝ), 50), true) := by
  have hiy : iy ((0:ℝ), 50) ⟨Real.pi, 1⟩ = none := by
    apply iy_eq_none
    · rw [cand_eval_wall]; norm_num
    · rw [play_area_snd, cand_eval_wall]; norm_num
  simp only [selectBounce, ix_eval_wall, hiy]

/-! ### Claims -/

/-- C1: for every starting position inside the closed arena rectangle
`[0, 20] × [0, 100]` and every velocity with non-negative distance, any
position returned by `get_new_position` again lies within the closed
rectangle. -/
theorem claim_C1_arena_invariant (n : ℕ) (p : Point) (v : Velocity)
    (r : Point × Velocity) (hp : inArena p) (hd : 0 ≤ v.distance)
    (h : get_new_position n p v = some r) :
    0 ≤ r.1.1 ∧ r.1.1 ≤ 20 ∧ 0 ≤ r.1.2 ∧ r.1.2 ≤ 100 :=
  gnp_inArena n p v r hp hd h

theorem claim_C1_arena_invariant_witness :
    inArena ((1:ℝ), 1) ∧ (0:ℝ) ≤ 1 ∧
    get_new_position 1 ((1:ℝ), 1) ⟨0, 1⟩ = some (((2:ℝ), 1), ⟨0, 1⟩) ∧
    (0 ≤ ((((2:ℝ), 1), (⟨0, 1⟩ : Velocity)) : Point × Velocity).1.1 ∧
      ((((2:ℝ), 1), (⟨0, 1⟩ : Velocity)) : Point × Velocity).1.1 ≤ 20 ∧
      0 ≤ ((((2:ℝ), 1), (⟨0, 1⟩ : Velocity)) : Point × Velocity).1.2 ∧
      ((((2:ℝ), 1), (⟨0, 1⟩ : Velocity)) : Point × Velocity).1.2 ≤ 100) := by
  refine ⟨by norm_num [inArena], by norm_num, gnp_eval_simple, ?_⟩
  exact claim_C1_arena_invariant 1 ((1:ℝ), 1) ⟨0, 1⟩ (((2:ℝ), 1), ⟨0, 1⟩)
    (by norm_num [inArena]) (by norm_num) gnp_eval_simple

/-- C3 (counterexample): at position `(0, 50)`, direction `π`, distance `1`,
`selectBounce` takes the bounce branch with an intersection at the starting
point itself, so the recursive call's budget `1 - 0 = 1` is not strictly
smaller than the current budget. -/
theorem claim_C3_counterexample :
    selectBounce ((0:ℝ), 50) ⟨Real.pi, 1⟩ = some (((0:ℝ), 50), true) ∧
    calc_distance ((0:ℝ), 50) ((0:ℝ), 50) = 0 ∧
    ¬((1:ℝ) - calc_distance ((0:ℝ), 50) ((0:ℝ), 50) < 1) := by
  refine ⟨sel_eval_wall, calc_distance_self _, ?_⟩
  rw [calc_distance_self]
  norm_num

/-- C3 (amended): each recursive call of `get_new_position` either takes the
no-intersection branch or recurses with a non-negative budget that never
increases (and strictly decreases whenever the struck intersection point
differs from the current position); the recursion is total: fuel
`potential p v + 2` always returns a result. -/
theorem claim_C3_amended_total :
    (∀ (p : Point) (v : Velocity) (A : Point) (isx : Bool), 0 ≤ v.distance →
        selectBounce p v = some (A, isx) →
        0 ≤ v.distance - calc_distance p A ∧
        v.distance - calc_distance p A ≤ v.distance ∧
        (A ≠ p → v.distance - calc_distance p A < v.distance)) ∧
    (∀ (p : Point) (v : Velocity), 0 ≤ v.distance →
        ∃ r, get_new_position (potential p v + 2) p v = some r) := by
  constructor
  · intro p v A isx hd hsel
    refine ⟨(bounce_inArena_budget hd hsel).2, ?_, ?_⟩
    · have := calc_distance_nonneg p A
      linarith
    · intro hne
      have := calc_distance_pos hne
      linarith
  · intro p v hd
    exact gnp_terminates (potential p v) p v hd le_rfl

theorem claim_C3_amended_total_witness :
    (0:ℝ) ≤ 1 ∧
    (0 ≤ (1:ℝ) - calc_distance ((0:ℝ), 50) ((0:ℝ), 50) ∧
      (1:ℝ) - calc_distance ((0:ℝ), 50) ((0:ℝ), 50) ≤ 1 ∧
      (((0:ℝ), (50:ℝ)) ≠ ((0:ℝ), 50) →
        (1:ℝ) - calc_distance ((0:ℝ), 50) ((0:ℝ), 50) < 1)) ∧
    (∃ r, get_new_position (potential ((0:ℝ), 50) ⟨Real.pi, 1⟩ + 2)
        ((0:ℝ), 50) ⟨Real.pi, 1⟩ = some r) := by
  refine ⟨by norm_num, ?_, ?_⟩
  · exact claim_C3_amended_total.1 ((0:ℝ), 50) ⟨Real.pi, 1⟩ ((0:ℝ), 50) true
      (by norm_num) sel_eval_wall
  · exact claim_C3_amended_total.2 ((0:ℝ), 50) ⟨Real.pi, 1⟩ (by norm_num)

/-- C5: reflecting off an x-wall maps the direction to `π - θ`, flipping the
cosine and preserving the sine; reflecting off a y-wall maps it to `2π - θ`,
flipping the sine and preserving the cosine. -/
theorem claim_C5_reflection (θ : ℝ) :
    reflect_direction true θ = Real.pi - θ ∧
    Real.cos (reflect_direction true θ) = -Real.cos θ ∧
    Real.sin (reflect_direction true θ) = Real.sin θ ∧
    reflect_direction false θ = 2 * Real.pi - θ ∧
    Real.cos (reflect_direction false θ) = Real.cos θ ∧
    Real.sin (reflect_direction false θ) = -Real.sin θ :=
  ⟨by simp [reflect_direction], reflect_true_cos θ, reflect_true_sin θ,
   by simp [reflect_direction], reflect_false_cos θ, reflect_false_sin θ⟩

/-- C8: with distance `0` the resolver is a no-op, returning the input
position and direction unchanged, for every position (boundary included)
and direction. -/
theorem claim_C8_zero_distance_noop (n : ℕ) (p : Point) (θ : ℝ) :
    get_new_position (n + 1) p ⟨θ, 0⟩ = some (p, ⟨θ, 0⟩) := by
  rw [gnp_succ_of_none (selectBounce_of_zero rfl), candidate_zero rfl]

/-- C9: the distance field of the returned velocity equals the input's
distance field exactly, so the per-tick speed never decays across ticks. -/
theorem claim_C9_distance_preserved (n : ℕ) (p : Point) (v : Velocity)
    (r : Point × Velocity) (h : get_new_position n p v = some r) :
    r.2.distance = v.distance :=
  gnp_distance_eq h

theorem claim_C9_distance_preserved_witness :
    get_new_position 1 ((1:ℝ), 1) ⟨0, 1⟩ = some (((2:ℝ), 1), ⟨0, 1⟩) ∧
    ((((2:ℝ), 1), (⟨0, 1⟩ : Velocity)) : Point × Velocity).2.distance =
      (⟨(0:ℝ), 1⟩ : Velocity).distance :=
  ⟨gnp_eval_simple, claim_C9_distance_preserved 1 ((1:ℝ), 1) ⟨0, 1⟩
    (((2:ℝ), 1), ⟨0, 1⟩) gnp_eval_simple⟩

lemma cand_eval_corner :
    candidate ((1:ℝ), 1) ⟨Real.pi / 4 + Real.pi, 2 * Real.sqrt 2⟩ = (-1, -1) := by
  have h2 : Real.sqrt 2 * Real.sqrt 2 = 2 := Real.mul_self_sqrt (by norm_num)
  simp only [candidate, Real.cos_add_pi, Real.sin_add_pi, Real.cos_pi_div_four,
    Real.sin_pi_div_four]
  exact Prod.ext_iff.mpr ⟨by linear_combination -h2, by linear_combination -h2⟩

lemma ix_eval_corner :
    ix ((1:ℝ), 1) ⟨Real.pi / 4 + Real.pi, 2 * Real.sqrt 2⟩ = some ((0:ℝ), 0) := by
  have hc : (candidate ((1:ℝ), 1) ⟨Real.pi / 4 + Real.pi, 2 * Real.sqrt 2⟩).1 < 0 := by
    rw [cand_eval_corner]; norm_num
  rw [ix_eq_of_lt hc, traveled_eq, cand_eval_corner, left_wall_eq]
  have hI : Line.intersect ⟨((1:ℝ), 1), ((-1:ℝ), -1)⟩ ⟨((0:ℝ), 0), ((0:ℝ), 100)⟩ =
      some (((1:ℝ), (1:ℝ)).1 + (1/2 : ℝ) * (((-1:ℝ), (-1:ℝ)).1 - ((1:ℝ), (1:ℝ)).1),
        ((1:ℝ), (1:ℝ)).2 + (1/2 : ℝ) * (((-1:ℝ), (-1:ℝ)).2 - ((1:ℝ), (1:ℝ)).2)) := by
    apply intersect_vwall_some <;> norm_num
  rw [hI]
  norm_num

lemma iy_eval_corner :
    iy ((1:ℝ), 1) ⟨Real.pi / 4 + Real.pi, 2 * Real.sqrt 2⟩ = some ((0:ℝ), 0) := by
  have hc : (candidate ((1:ℝ), 1) ⟨Real.pi / 4 + Real.pi, 2 * Real.sqrt 2⟩).2 < 0 := by
    rw [cand_eval_corner]; norm_num
  rw [iy_eq_of_lt hc, traveled_eq, cand_eval_corner, top_wall_eq]
  have hI : Line.intersect ⟨((1:ℝ), 1), ((-1:ℝ), -1)⟩ ⟨((0:ℝ), 0), ((20:ℝ), 0)⟩ =
      some (((1:ℝ), (1:ℝ)).1 + (1/2 : ℝ) * (((-1:ℝ), (-1:ℝ)).1 - ((1:ℝ), (1:ℝ)).1),
        ((1:ℝ), (1:ℝ)).2 + (1/2 : ℝ) * (((-1:ℝ), (-1:ℝ)).2 - ((1:ℝ), (1:ℝ)).2)) := by
    apply intersect_hwall_some <;> norm_num
  rw [hI]
  norm_num

/-- C2: whenever both an x-wall and a y-wall intersection of the traveled
segment exist, they are the same point, so their Euclidean distances from the
start tie (also under the `(distance * 10000)` sort key), and `min_by_key`
selects the earlier-enumerated x-wall entry, which is trivially nearest. -/
theorem claim_C2_nearest_tie_x_wins (p : Point) (v : Velocity) (a b : Point)
    (hax : ix p v = some a) (hby : iy p v = some b) :
    a = b ∧ calc_distance p a ≤ calc_distance p b ∧
    sortKey (calc_distance p a) = sortKey (calc_distance p b) ∧
    selectBounce p v = some (a, true) := by
  have hab := both_intersections_eq hax hby
  subst hab
  exact ⟨rfl, le_rfl, rfl, selectBounce_of_both hax hby⟩

theorem claim_C2_nearest_tie_x_wins_witness :
    ix ((1:ℝ), 1) ⟨Real.pi / 4 + Real.pi, 2 * Real.sqrt 2⟩ = some ((0:ℝ), 0) ∧
    iy ((1:ℝ), 1) ⟨Real.pi / 4 + Real.pi, 2 * Real.sqrt 2⟩ = some ((0:ℝ), 0) ∧
    (((0:ℝ), (0:ℝ)) = ((0:ℝ), (0:ℝ)) ∧
      calc_distance ((1:ℝ), 1) ((0:ℝ), 0) ≤ calc_distance ((1:ℝ), 1) ((0:ℝ), 0) ∧
      sortKey (calc_distance ((1:ℝ), 1) ((0:ℝ), 0)) =
        sortKey (calc_distance ((1:ℝ), 1) ((0:ℝ), 0)) ∧
      selectBounce ((1:ℝ), 1) ⟨Real.pi / 4 + Real.pi, 2 * Real.sqrt 2⟩ =
        some (((0:ℝ), 0), true)) :=
  ⟨ix_eval_corner, iy_eval_corner,
    claim_C2_nearest_tie_x_wins ((1:ℝ), 1) ⟨Real.pi / 4 + Real.pi, 2 * Real.sqrt 2⟩
      ((0:ℝ), 0) ((0:ℝ), 0) ix_eval_corner iy_eval_corner⟩

/-- C6: if the start is strictly inside the arena and the naive candidate
endpoint lands inside the arena (in the contact-free region), the resolver
returns the candidate and the unchanged velocity. -/
theorem claim_C6_no_contact_identity (n : ℕ) (p : Point) (v : Velocity)
    (hp1 : 0 < p.1) (hp2 : p.1 < 20) (hp3 : 0 < p.2) (hp4 : p.2 < 100)
    (hc1 : 0 ≤ (candidate p v).1) (hc2 : (candidate p v).1 < 20)
    (hc3 : 0 ≤ (candidate p v).2) (hc4 : (candidate p v).2 < 100) :
    get_new_position (n + 1) p v = some (candidate p v, v) := by
  apply gnp_succ_of_none
  apply selectBounce_eq_none_iff.mpr
  refine ⟨ix_eq_none (not_lt.mpr hc1) ?_, iy_eq_none (not_lt.mpr hc3) ?_⟩
  · rw [play_area_fst]; exact not_le.mpr hc2
  · rw [play_area_snd]; exact not_le.mpr hc4

theorem claim_C6_no_contact_identity_witness :
    (0:ℝ) < ((1:ℝ), (1:ℝ)).1 ∧ ((1:ℝ), (1:ℝ)).1 < 20 ∧
    (0:ℝ) < ((1:ℝ), (1:ℝ)).2 ∧ ((1:ℝ), (1:ℝ)).2 < 100 ∧
    0 ≤ (candidate ((1:ℝ), 1) ⟨0, 1⟩).1 ∧ (candidate ((1:ℝ), 1) ⟨0, 1⟩).1 < 20 ∧
    0 ≤ (candidate ((1:ℝ), 1) ⟨0, 1⟩).2 ∧ (candidate ((1:ℝ), 1) ⟨0, 1⟩).2 < 100 ∧
    get_new_position 1 ((1:ℝ), 1) ⟨0, 1⟩ = some (candidate ((1:ℝ), 1) ⟨0, 1⟩, ⟨0, 1⟩) := by
  have e1 : 0 ≤ (candidate ((1:ℝ), 1) ⟨0, 1⟩).1 := by rw [cand_eval_simple]; norm_num
  have e2 : (candidate ((1:ℝ), 1) ⟨0, 1⟩).1 < 20 := by rw [cand_eval_simple]; norm_num
  have e3 : 0 ≤ (candidate ((1:ℝ), 1) ⟨0, 1⟩).2 := by rw [cand_eval_simple]; norm_num
  have e4 : (candidate ((1:ℝ), 1) ⟨0, 1⟩).2 < 100 := by rw [cand_eval_simple]; norm_num
  refine ⟨by norm_num, by norm_num, by norm_num, by norm_num, e1, e2, e3, e4, ?_⟩
  exact claim_C6_no_contact_identity 0 ((1:ℝ), 1) ⟨0, 1⟩ (by norm_num) (by norm_num)
    (by norm_num) (by norm_num) e1 e2 e3 e4

lemma intersect_none_of_den {self other : Line}
    (h : (self.a.1 - self.b.1) * (other.a.2 - other.b.2) -
      (self.a.2 - self.b.2) * (other.a.1 - other.b.1) = 0) :
    self.intersect other = none := by
  simp only [Line.intersect]
  rw [if_pos h]

/-- C10: segment intersection is symmetric — both orders return the same
`Option Point` — and parallel segments (zero denominator, including identical
segments) return no intersection in either order. -/
theorem claim_C10_intersect_symm (A B : Line) (hA : A.a ≠ A.b) (hB : B.a ≠ B.b) :
    A.intersect B = B.intersect A ∧
    ((A.a.1 - A.b.1) * (B.a.2 - B.b.2) - (A.a.2 - A.b.2) * (B.a.1 - B.b.1) = 0 →
      A.intersect B = none ∧ B.intersect A = none) := by
  constructor
  · by_cases hden : (A.a.1 - A.b.1) * (B.a.2 - B.b.2) -
        (A.a.2 - A.b.2) * (B.a.1 - B.b.1) = 0
    · rw [intersect_none_of_den hden,
        intersect_none_of_den (by linear_combination -hden)]
    · simp only [Line.intersect]
      set x1 := A.a.1 with hx1
      set y1 := A.a.2 with hy1
      set x2 := A.b.1 with hx2
      set y2 := A.b.2 with hy2
      set x3 := B.a.1 with hx3
      set y3 := B.a.2 with hy3
      set x4 := B.b.1 with hx4
      set y4 := B.b.2 with hy4
      have hden' : ¬((x3 - x4) * (y1 - y2) - (y3 - y4) * (x1 - x2) = 0) :=
        fun hq => hden (by linear_combination -hq)
      rw [if_neg hden, if_neg hden']
      have ht' : ((x3 - x1) * (y1 - y2) - (y3 - y1) * (x1 - x2)) /
          ((x3 - x4) * (y1 - y2) - (y3 - y4) * (x1 - x2)) =
          -((x1 - x2) * (y1 - y3) - (y1 - y2) * (x1 - x3)) /
          ((x1 - x2) * (y3 - y4) - (y1 - y2) * (x3 - x4)) := by
        rw [div_eq_div_iff hden' hden]
        ring
      have hu' : -((x3 - x4) * (y3 - y1) - (y3 - y4) * (x3 - x1)) /
          ((x3 - x4) * (y1 - y2) - (y3 - y4) * (x1 - x2)) =
          ((x1 - x3) * (y3 - y4) - (y1 - y3) * (x3 - x4)) /
          ((x1 - x2) * (y3 - y4) - (y1 - y2) * (x3 - x4)) := by
        rw [div_eq_div_iff hden' hden]
        ring
      rw [ht', hu']
      refine if_congr ⟨fun h => ⟨h.2.2.1, h.2.2.2, h.1, h.2.1⟩,
        fun h => ⟨h.2.2.1, h.2.2.2, h.1, h.2.1⟩⟩ ?_ rfl
      have htd := div_mul_cancel₀ ((x1 - x3) * (y3 - y4) - (y1 - y3) * (x3 - x4))
        (b := (x1 - x2) * (y3 - y4) - (y1 - y2) * (x3 - x4)) hden
      have hud := div_mul_cancel₀ (-((x1 - x2) * (y1 - y3) - (y1 - y2) * (x1 - x3)))
        (b := (x1 - x2) * (y3 - y4) - (y1 - y2) * (x3 - x4)) hden
      congr 1
      refine Prod.ext_iff.mpr ⟨?_, ?_⟩
      · apply mul_right_cancel₀ hden
        linear_combination (x2 - x1) * htd - (x4 - x3) * hud
      · apply mul_right_cancel₀ hden
        linear_combination (y2 - y1) * htd - (y4 - y3) * hud
  · intro h
    exact ⟨intersect_none_of_den h, intersect_none_of_den (by linear_combination -h)⟩

theorem claim_C10_intersect_symm_witness :
    (⟨((0:ℝ), 1), (2, 1)⟩ : Line).a ≠ (⟨((0:ℝ), 1), (2, 1)⟩ : Line).b ∧
    (⟨((1:ℝ), 0), (1, 2)⟩ : Line).a ≠ (⟨((1:ℝ), 0), (1, 2)⟩ : Line).b ∧
    Line.intersect ⟨((0:ℝ), 1), (2, 1)⟩ ⟨((1:ℝ), 0), (1, 2)⟩ =
      Line.intersect ⟨((1:ℝ), 0), (1, 2)⟩ ⟨((0:ℝ), 1), (2, 1)⟩ := by
  refine ⟨by norm_num [Prod.ext_iff], by norm_num [Prod.ext_iff], ?_⟩
  exact (claim_C10_intersect_symm ⟨((0:ℝ), 1), (2, 1)⟩ ⟨((1:ℝ), 0), (1, 2)⟩
    (by norm_num [Prod.ext_iff]) (by norm_num [Prod.ext_iff])).1

/-! ### Evaluation for the render out-of-bounds scenario -/

lemma cand_eval_19 : candidate ((19:ℝ), 50) ⟨0, 1⟩ = (20, 50) := by
  norm_num [candidate]

lemma ix_eval_19 : ix ((19:ℝ), 50) ⟨0, 1⟩ = some ((20:ℝ), 50) := by
  have h1 : ¬(candidate ((19:ℝ), 50) ⟨0, 1⟩).1 < 0 := by
    rw [cand_eval_19]; norm_num
  have h2 : ((PLAY_AREA_SIZE.1 : ℕ) : ℝ) ≤ (candidate ((19:ℝ), 50) ⟨0, 1⟩).1 := by
    rw [play_area_fst, cand_eval_19]
  rw [ix_eq_of_ge h1 h2, traveled_eq, cand_eval_19, right_wall_eq]
  have hI : Line.intersect ⟨((19:ℝ), 50), ((20:ℝ), 50)⟩ ⟨((20:ℝ), 0), ((20:ℝ), 100)⟩ =
      some (((19:ℝ), (50:ℝ)).1 + (1 : ℝ) * (((20:ℝ), (50:ℝ)).1 - ((19:ℝ), (50:ℝ)).1),
        ((19:ℝ), (50:ℝ)).2 + (1 : ℝ) * (((20:ℝ), (50:ℝ)).2 - ((19:ℝ), (50:ℝ)).2)) := by
    apply intersect_vwall_some <;> norm_num
  rw [hI]
  norm_num

lemma iy_eval_19 : iy ((19:ℝ), 50) ⟨0, 1⟩ = none := by
  apply iy_eq_none
  · rw [cand_eval_19]; norm_num
  · rw [play_area_snd, cand_eval_19]; norm_num

lemma sel_eval_19 : selectBounce ((19:ℝ), 50) ⟨0, 1⟩ = some (((20:ℝ), 50), true) := by
  simp only [selectBounce, ix_eval_19, iy_eval_19]

lemma dist_eval_19 : calc_distance ((19:ℝ), 50) ((20:ℝ), 50) = 1 := by
  simp only [calc_distance]
  norm_num

lemma inner_eval_19 :
    get_new_position 1 ((20:ℝ), 50)
      ⟨reflect_direction true (0:ℝ), (1:ℝ) - calc_distance ((19:ℝ), 50) ((20:ℝ), 50)⟩ =
    some (((20:ℝ), 50),
      ⟨reflect_direction true (0:ℝ), (1:ℝ) - calc_distance ((19:ℝ), 50) ((20:ℝ), 50)⟩) := by
  have hz : ((⟨reflect_direction true (0:ℝ),
      (1:ℝ) - calc_distance ((19:ℝ), 50) ((20:ℝ), 50)⟩ : Velocity)).distance = 0 := by
    show (1:ℝ) - calc_distance ((19:ℝ), 50) ((20:ℝ), 50) = 0
    rw [dist_eval_19]; norm_num
  rw [gnp_succ_of_none (selectBounce_of_zero hz), candidate_zero hz]

lemma gnp_eval_19 :
    get_new_position 2 ((19:ℝ), 50) ⟨0, 1⟩ = some (((20:ℝ), 50), ⟨Real.pi, 1⟩) := by
  have h := gnp_succ_of_bounce sel_eval_19 inner_eval_19
  have hdir : reflect_direction true (0:ℝ) = Real.pi := by
    simp [reflect_direction]
  rw [show (2:ℕ) = 1 + 1 from rfl, h, hdir]

lemma ptb_eval_20_50 :
    point_to_board_coord ((20:ℝ), 50) BOARD_RESOLUTION PLAY_AREA_SIZE = (20, 50) := by
  simp only [point_to_board_coord, as_usize, BOARD_RESOLUTION, PLAY_AREA_SIZE]
  norm_num
  omega

/-- C4 (code bug): from the in-arena start `(19, 50)` with direction `0` and
distance `1`, one `advance` lands exactly on `x = 20`; `point_to_board_coord`
then yields row index `20`, which is not below the board's row count `20`,
so `render`'s `board[coord.0]` indexes out of bounds. -/
theorem claim_C4_render_out_of_bounds :
    inArena ((19:ℝ), 50) ∧ (0:ℝ) ≤ 1 ∧
    get_new_position 2 ((19:ℝ), 50) ⟨0, 1⟩ = some (((20:ℝ), 50), ⟨Real.pi, 1⟩) ∧
    (point_to_board_coord ((20:ℝ), 50) BOARD_RESOLUTION PLAY_AREA_SIZE).1 = 20 ∧
    ¬((point_to_board_coord ((20:ℝ), 50) BOARD_RESOLUTION PLAY_AREA_SIZE).1 <
        BOARD_RESOLUTION.1) := by
  refine ⟨by norm_num [inArena], by norm_num, gnp_eval_19, ?_, ?_⟩
  · rw [ptb_eval_20_50]
  · rw [ptb_eval_20_50]
    simp [BOARD_RESOLUTION]

/-! ### Perpendicular round trips (one per wall) -/

lemma c7_right (x y : ℝ) (hx0 : 0 < x) (hx1 : x < 20) (hy0 : 0 ≤ y) (hy1 : y < 100) :
    ∃ w, get_new_position 2 (x, y) ⟨0, 2 * (20 - x)⟩ = some ((x, y), w) := by
  have hcand : candidate (x, y) ⟨0, 2 * (20 - x)⟩ = (x + 2 * (20 - x), y) := by
    simp [candidate]
  have h1 : ¬(candidate (x, y) ⟨0, 2 * (20 - x)⟩).1 < 0 := by
    simp only [hcand]; push_neg; linarith
  have h2 : ((PLAY_AREA_SIZE.1 : ℕ) : ℝ) ≤ (candidate (x, y) ⟨0, 2 * (20 - x)⟩).1 := by
    rw [play_area_fst]; simp only [hcand]; linarith
  have h3 : ¬(candidate (x, y) ⟨0, 2 * (20 - x)⟩).2 < 0 := by
    simp only [hcand]; push_neg; linarith
  have h4 : ¬((PLAY_AREA_SIZE.2 : ℕ) : ℝ) ≤ (candidate (x, y) ⟨0, 2 * (20 - x)⟩).2 := by
    rw [play_area_snd]; simp only [hcand]; push_neg; linarith
  have hI : Line.intersect ⟨(x, y), (x + 2 * (20 - x), y)⟩ ⟨((20:ℝ), 0), ((20:ℝ), 100)⟩ =
      some ((x, y).1 + (1/2 : ℝ) * ((x + 2 * (20 - x), y).1 - (x, y).1),
        (x, y).2 + (1/2 : ℝ) * ((x + 2 * (20 - x), y).2 - (x, y).2)) := by
    apply intersect_vwall_some
    · dsimp only; intro hq; linarith
    · dsimp only; ring
    · norm_num
    · norm_num
    · dsimp only; linarith
    · dsimp only; linarith
  have hxwall : ix (x, y) ⟨0, 2 * (20 - x)⟩ = some (20, y) := by
    rw [ix_eq_of_ge h1 h2, traveled_eq, hcand, right_wall_eq, hI]
    congr 1
    exact Prod.ext_iff.mpr ⟨by dsimp only; ring, by dsimp only; ring⟩
  have hywall : iy (x, y) ⟨0, 2 * (20 - x)⟩ = none := iy_eq_none h3 h4
  have hsel : selectBounce (x, y) ⟨0, 2 * (20 - x)⟩ = some (((20:ℝ), y), true) := by
    simp only [selectBounce, hxwall, hywall]
  have hdist : calc_distance (x, y) (20, y) = 20 - x := by
    simp only [calc_distance]
    rw [show ((20:ℝ) - x) ^ 2 + (y - y) ^ 2 = (20 - x) ^ 2 by ring,
      Real.sqrt_sq (by linarith)]
  have hcand2 : candidate ((20:ℝ), y)
      ⟨reflect_direction true (0:ℝ), 2 * (20 - x) - calc_distance (x, y) (20, y)⟩ =
      (x, y) := by
    simp only [candidate, reflect_true_cos, reflect_true_sin, Real.cos_zero,
      Real.sin_zero, hdist]
    exact Prod.ext_iff.mpr ⟨by ring, by ring⟩
  have hsel2 : selectBounce ((20:ℝ), y) ⟨reflect_direction true (0:ℝ),
      2 * (20 - x) - calc_distance (x, y) (20, y)⟩ = none := by
    apply selectBounce_eq_none_iff.mpr
    refine ⟨ix_eq_none ?_ ?_, iy_eq_none ?_ ?_⟩
    · simp only [hcand2]; push_neg; linarith
    · rw [play_area_fst]; simp only [hcand2]; push_neg; linarith
    · simp only [hcand2]; push_neg; linarith
    · rw [play_area_snd]; simp only [hcand2]; push_neg; linarith
  have hrec : get_new_position 1 ((20:ℝ), y) ⟨reflect_direction true (0:ℝ),
      2 * (20 - x) - calc_distance (x, y) (20, y)⟩ =
      some ((x, y), ⟨reflect_direction true (0:ℝ),
        2 * (20 - x) - calc_distance (x, y) (20, y)⟩) := by
    rw [gnp_succ_of_none hsel2, hcand2]
  exact ⟨_, gnp_succ_of_bounce hsel hrec⟩

lemma c7_left (x y : ℝ) (hx0 : 0 < x) (hx1 : x < 20) (hy0 : 0 ≤ y) (hy1 : y < 100) :
    ∃ w, get_new_position 2 (x, y) ⟨Real.pi, 2 * x⟩ = some ((x, y), w) := by
  have hcand : candidate (x, y) ⟨Real.pi, 2 * x⟩ = (-x, y) := by
    simp only [candidate, Real.cos_pi, Real.sin_pi]
    exact Prod.ext_iff.mpr ⟨by ring, by ring⟩
  have h1 : (candidate (x, y) ⟨Real.pi, 2 * x⟩).1 < 0 := by
    simp only [hcand]; linarith
  have h3 : ¬(candidate (x, y) ⟨Real.pi, 2 * x⟩).2 < 0 := by
    simp only [hcand]; push_neg; linarith
  have h4 : ¬((PLAY_AREA_SIZE.2 : ℕ) : ℝ) ≤ (candidate (x, y) ⟨Real.pi, 2 * x⟩).2 := by
    rw [play_area_snd]; simp only [hcand]; push_neg; linarith
  have hI : Line.intersect ⟨(x, y), (-x, y)⟩ ⟨((0:ℝ), 0), ((0:ℝ), 100)⟩ =
      some ((x, y).1 + (1/2 : ℝ) * ((-x, y).1 - (x, y).1),
        (x, y).2 + (1/2 : ℝ) * ((-x, y).2 - (x, y).2)) := by
    apply intersect_vwall_some
    · dsimp only; intro hq; linarith
    · dsimp only; ring
    · norm_num
    · norm_num
    · dsimp only; linarith
    · dsimp only; linarith
  have hxwall : ix (x, y) ⟨Real.pi, 2 * x⟩ = some (0, y) := by
    rw [ix_eq_of_lt h1, traveled_eq, hcand, left_wall_eq, hI]
    congr 1
    exact Prod.ext_iff.mpr ⟨by dsimp only; ring, by dsimp only; ring⟩
  have hywall : iy (x, y) ⟨Real.pi, 2 * x⟩ = none := iy_eq_none h3 h4
  have hsel : selectBounce (x, y) ⟨Real.pi, 2 * x⟩ = some (((0:ℝ), y), true) := by
    simp only [selectBounce, hxwall, hywall]
  have hdist : calc_distance (x, y) (0, y) = x := by
    simp only [calc_distance]
    rw [show ((0:ℝ) - x) ^ 2 + (y - y) ^ 2 = x ^ 2 by ring,
      Real.sqrt_sq (by linarith)]
  have hcand2 : candidate ((0:ℝ), y)
      ⟨reflect_direction true Real.pi, 2 * x - calc_distance (x, y) (0, y)⟩ =
      (x, y) := by
    simp only [candidate, reflect_true_cos, reflect_true_sin, Real.cos_pi,
      Real.sin_pi, hdist]
    exact Prod.ext_iff.mpr ⟨by ring, by ring⟩
  have hsel2 : selectBounce ((0:ℝ), y) ⟨reflect_direction true Real.pi,
      2 * x - calc_distance (x, y) (0, y)⟩ = none := by
    apply selectBounce_eq_none_iff.mpr
    refine ⟨ix_eq_none ?_ ?_, iy_eq_none ?_ ?_⟩
    · simp only [hcand2]; push_neg; linarith
    · rw [play_area_fst]; simp only [hcand2]; push_neg; linarith
    · simp only [hcand2]; push_neg; linarith
    · rw [play_area_snd]; simp only [hcand2]; push_neg; linarith
  have hrec : get_new_position 1 ((0:ℝ), y) ⟨reflect_direction true Real.pi,
      2 * x - calc_distance (x, y) (0, y)⟩ =
      some ((x, y), ⟨reflect_direction true Real.pi,
        2 * x - calc_distance (x, y) (0, y)⟩) := by
    rw [gnp_succ_of_none hsel2, hcand2]
  exact ⟨_, gnp_succ_of_bounce hsel hrec⟩

lemma c7_bottom (x y : ℝ) (hx0 : 0 ≤ x) (hx1 : x < 20) (hy0 : 0 ≤ y) (hy1 : y < 100) :
    ∃ w, get_new_position 2 (x, y) ⟨Real.pi / 2, 2 * (100 - y)⟩ = some ((x, y), w) := by
  have hcand : candidate (x, y) ⟨Real.pi / 2, 2 * (100 - y)⟩ = (x, y + 2 * (100 - y)) := by
    simp only [candidate, Real.cos_pi_div_two, Real.sin_pi_div_two]
    exact Prod.ext_iff.mpr ⟨by ring, by ring⟩
  have h1 : ¬(candidate (x, y) ⟨Real.pi / 2, 2 * (100 - y)⟩).1 < 0 := by
    simp only [hcand]; push_neg; linarith
  have h2 : ¬((PLAY_AREA_SIZE.1 : ℕ) : ℝ) ≤ (candidate (x, y) ⟨Real.pi / 2, 2 * (100 - y)⟩).1 := by
    rw [play_area_fst]; simp only [hcand]; push_neg; linarith
  have h3 : ¬(candidate (x, y) ⟨Real.pi / 2, 2 * (100 - y)⟩).2 < 0 := by
    simp only [hcand]; push_neg; linarith
  have h4 : ((PLAY_AREA_SIZE.2 : ℕ) : ℝ) ≤ (candidate (x, y) ⟨Real.pi / 2, 2 * (100 - y)⟩).2 := by
    rw [play_area_snd]; simp only [hcand]; linarith
  have hI : Line.intersect ⟨(x, y), (x, y + 2 * (100 - y))⟩ ⟨((0:ℝ), 100), ((20:ℝ), 100)⟩ =
      some ((x, y).1 + (1/2 : ℝ) * ((x, y + 2 * (100 - y)).1 - (x, y).1),
        (x, y).2 + (1/2 : ℝ) * ((x, y + 2 * (100 - y)).2 - (x, y).2)) := by
    apply intersect_hwall_some
    · dsimp only; intro hq; linarith
    · dsimp only; ring
    · norm_num
    · norm_num
    · dsimp only; linarith
    · dsimp only; linarith
  have hywall : iy (x, y) ⟨Real.pi / 2, 2 * (100 - y)⟩ = some (x, 100) := by
    rw [iy_eq_of_ge h3 h4, traveled_eq, hcand, bottom_wall_eq, hI]
    congr 1
    exact Prod.ext_iff.mpr ⟨by dsimp only; ring, by dsimp only; ring⟩
  have hxwall : ix (x, y) ⟨Real.pi / 2, 2 * (100 - y)⟩ = none := ix_eq_none h1 h2
  have hsel : selectBounce (x, y) ⟨Real.pi / 2, 2 * (100 - y)⟩ =
      some ((x, (100:ℝ)), false) := by
    simp only [selectBounce, hxwall, hywall]
  have hdist : calc_distance (x, y) (x, 100) = 100 - y := by
    simp only [calc_distance]
    rw [show (x - x) ^ 2 + ((100:ℝ) - y) ^ 2 = (100 - y) ^ 2 by ring,
      Real.sqrt_sq (by linarith)]
  have hcand2 : candidate (x, (100:ℝ))
      ⟨reflect_direction false (Real.pi / 2), 2 * (100 - y) - calc_distance (x, y) (x, 100)⟩ =
      (x, y) := by
    simp only [candidate, reflect_false_cos, reflect_false_sin, Real.cos_pi_div_two,
      Real.sin_pi_div_two, hdist]
    exact Prod.ext_iff.mpr ⟨by ring, by ring⟩
  have hsel2 : selectBounce (x, (100:ℝ)) ⟨reflect_direction false (Real.pi / 2),
      2 * (100 - y) - calc_distance (x, y) (x, 100)⟩ = none := by
    apply selectBounce_eq_none_iff.mpr
    refine ⟨ix_eq_none ?_ ?_, iy_eq_none ?_ ?_⟩
    · simp only [hcand2]; push_neg; linarith
    · rw [play_area_fst]; simp only [hcand2]; push_neg; linarith
    · simp only [hcand2]; push_neg; linarith
    · rw [play_area_snd]; simp only [hcand2]; push_neg; linarith
  have hrec : get_new_position 1 (x, (100:ℝ)) ⟨reflect_direction false (Real.pi / 2),
      2 * (100 - y) - calc_distance (x, y) (x, 100)⟩ =
      some ((x, y), ⟨reflect_direction false (Real.pi / 2),
        2 * (100 - y) - calc_distance (x, y) (x, 100)⟩) := by
    rw [gnp_succ_of_none hsel2, hcand2]
  exact ⟨_, gnp_succ_of_bounce hsel hrec⟩

lemma c7_top (x y : ℝ) (hx0 : 0 ≤ x) (hx1 : x < 20) (hy0 : 0 < y) (hy1 : y < 100) :
    ∃ w, get_new_position 2 (x, y) ⟨Real.pi / 2 + Real.pi, 2 * y⟩ = some ((x, y), w) := by
  have hcand : candidate (x, y) ⟨Real.pi / 2 + Real.pi, 2 * y⟩ = (x, -y) := by
    simp only [candidate, Real.cos_add_pi, Real.sin_add_pi, Real.cos_pi_div_two,
      Real.sin_pi_div_two]
    exact Prod.ext_iff.mpr ⟨by ring, by ring⟩
  have h1 : ¬(candidate (x, y) ⟨Real.pi / 2 + Real.pi, 2 * y⟩).1 < 0 := by
    simp only [hcand]; push_neg; linarith
  have h2 : ¬((PLAY_AREA_SIZE.1 : ℕ) : ℝ) ≤ (candidate (x, y) ⟨Real.pi / 2 + Real.pi, 2 * y⟩).1 := by
    rw [play_area_fst]; simp only [hcand]; push_neg; linarith
  have h3 : (candidate (x, y) ⟨Real.pi / 2 + Real.pi, 2 * y⟩).2 < 0 := by
    simp only [hcand]; linarith
  have hI : Line.intersect ⟨(x, y), (x, -y)⟩ ⟨((0:ℝ), 0), ((20:ℝ), 0)⟩ =
      some ((x, y).1 + (1/2 : ℝ) * ((x, -y).1 - (x, y).1),
        (x, y).2 + (1/2 : ℝ) * ((x, -y).2 - (x, y).2)) := by
    apply intersect_hwall_some
    · dsimp only; intro hq; linarith
    · dsimp only; ring
    · norm_num
    · norm_num
    · dsimp only; linarith
    · dsimp only; linarith
  have hywall : iy (x, y) ⟨Real.pi / 2 + Real.pi, 2 * y⟩ = some (x, 0) := by
    rw [iy_eq_of_lt h3, traveled_eq, hcand, top_wall_eq, hI]
    congr 1
    exact Prod.ext_iff.mpr ⟨by dsimp only; ring, by dsimp only; ring⟩
  have hxwall : ix (x, y) ⟨Real.pi / 2 + Real.pi, 2 * y⟩ = none := ix_eq_none h1 h2
  have hsel : selectBounce (x, y) ⟨Real.pi / 2 + Real.pi, 2 * y⟩ =
      some ((x, (0:ℝ)), false) := by
    simp only [selectBounce, hxwall, hywall]
  have hdist : calc_distance (x, y) (x, 0) = y := by
    simp only [calc_distance]
    rw [show (x - x) ^ 2 + ((0:ℝ) - y) ^ 2 = y ^ 2 by ring,
      Real.sqrt_sq (by linarith)]
  have hcand2 : candidate (x, (0:ℝ))
      ⟨reflect_direction false (Real.pi / 2 + Real.pi), 2 * y - calc_distance (x, y) (x, 0)⟩ =
      (x, y) := by
    simp only [candidate, reflect_false_cos, reflect_false_sin, Real.cos_add_pi,
      Real.sin_add_pi, Real.cos_pi_div_two, Real.sin_pi_div_two, hdist]
    exact Prod.ext_iff.mpr ⟨by ring, by ring⟩
  have hsel2 : selectBounce (x, (0:ℝ)) ⟨reflect_direction false (Real.pi / 2 + Real.pi),
      2 * y - calc_distance (x, y) (x, 0)⟩ = none := by
    apply selectBounce_eq_none_iff.mpr
    refine ⟨ix_eq_none ?_ ?_, iy_eq_none ?_ ?_⟩
    · simp only [hcand2]; push_neg; linarith
    · rw [play_area_fst]; simp only [hcand2]; push_neg; linarith
    · simp only [hcand2]; push_neg; linarith
    · rw [play_area_snd]; simp only [hcand2]; push_neg; linarith
  have hrec : get_new_position 1 (x, (0:ℝ)) ⟨reflect_direction false (Real.pi / 2 + Real.pi),
      2 * y - calc_distance (x, y) (x, 0)⟩ =
      some ((x, y), ⟨reflect_direction false (Real.pi / 2 + Real.pi),
        2 * y - calc_distance (x, y) (x, 0)⟩) := by
    rw [gnp_succ_of_none hsel2, hcand2]
  exact ⟨_, gnp_succ_of_bounce hsel hrec⟩

/-- C7: a particle aimed perpendicularly at a wall from distance `d` with
per-tick travel `2 * d` returns to its starting position after one call:
stated for all four walls (directions `0`, `π`, `π/2`, `π/2 + π`). -/
theorem claim_C7_perpendicular_round_trip :
    (∀ x y : ℝ, 0 < x → x < 20 → 0 ≤ y → y < 100 →
      ∃ w, get_new_position 2 (x, y) ⟨0, 2 * (20 - x)⟩ = some ((x, y), w)) ∧
    (∀ x y : ℝ, 0 < x → x < 20 → 0 ≤ y → y < 100 →
      ∃ w, get_new_position 2 (x, y) ⟨Real.pi, 2 * x⟩ = some ((x, y), w)) ∧
    (∀ x y : ℝ, 0 ≤ x → x < 20 → 0 ≤ y → y < 100 →
      ∃ w, get_new_position 2 (x, y) ⟨Real.pi / 2, 2 * (100 - y)⟩ = some ((x, y), w)) ∧
    (∀ x y : ℝ, 0 ≤ x → x < 20 → 0 < y → y < 100 →
      ∃ w, get_new_position 2 (x, y) ⟨Real.pi / 2 + Real.pi, 2 * y⟩ = some ((x, y), w)) :=
  ⟨c7_right, c7_left, c7_bottom, c7_top⟩

theorem claim_C7_perpendicular_round_trip_witness :
    (∃ w, get_new_position 2 ((10:ℝ), 50) ⟨0, 2 * (20 - 10)⟩ = some (((10:ℝ), 50), w)) ∧
    (∃ w, get_new_position 2 ((10:ℝ), 50) ⟨Real.pi, 2 * 10⟩ = some (((10:ℝ), 50), w)) ∧
    (∃ w, get_new_position 2 ((10:ℝ), 50) ⟨Real.pi / 2, 2 * (100 - 50)⟩ =
      some (((10:ℝ), 50), w)) ∧
    (∃ w, get_new_position 2 ((10:ℝ), 50) ⟨Real.pi / 2 + Real.pi, 2 * 50⟩ =
      some (((10:ℝ), 50), w)) :=
  ⟨claim_C7_perpendicular_round_trip.1 10 50 (by norm_num) (by norm_num) (by norm_num)
      (by norm_num),
   claim_C7_perpendicular_round_trip.2.1 10 50 (by norm_num) (by norm_num) (by norm_num)
      (by norm_num),
   claim_C7_perpendicular_round_trip.2.2.1 10 50 (by norm_num) (by norm_num) (by norm_num)
      (by norm_num),
   claim_C7_perpendicular_round_trip.2.2.2 10 50 (by norm_num) (by norm_num) (by norm_num)
      (by norm_num)⟩

end Bouncy
